import Mathlib

/-!
# Verification of the jrnlb journal-export decoder

A shallow embedding of `src/parser.rs` (crate `jrnlb`): the nom-5 streaming
parser primitives it uses, the field/record parsers built on them, the
`JournalMessage` accessors, the filter, and the `JournalBackupReader`
iterator, together with theorems settling the specification claims.

Bytes are modelled as `Nat` (the Rust code only ever compares them for
equality with `b'='`/`b'\n'` and checks numeric ranges). Byte strings are
`List Nat`. Rust panics (unchecked indexing, `unwrap`, explicit `panic!`)
are modelled by explicit `crash` outcomes.
-/

/-- Error kinds produced by the nom combinators used in `parser.rs`
(`ErrorKind::Tag` from `tag`, `ErrorKind::TakeWhile1` from `take_while1`). -/
inductive ErrKind where
  | tag
  | takeWhile1
deriving DecidableEq, Repr

/-- Result of a nom-5 streaming parser over a byte slice. `ok rest v` is
`Ok((rest, v))`; `error` is `Err(Err::Error(_, kind))`; `incomplete n` is
`Err(Err::Incomplete(Needed::Size(n)))` (nom 5 reports the total size of the
failing element); `crash` models a Rust panic (e.g. out-of-bounds index). -/
inductive PResult (α : Type) where
  | ok (rest : List Nat) (val : α)
  | error (kind : ErrKind)
  | incomplete (needed : Nat)
  | crash
deriving DecidableEq, Repr

/-- Sequencing of parse results, mirroring nom's `?`/`tuple` propagation. -/
def PResult.bind {α β : Type} : PResult α → (List Nat → α → PResult β) → PResult β
  | .ok r v, f => f r v
  | .error k, _ => .error k
  | .incomplete n, _ => .incomplete n
  | .crash, _ => .crash

/-- Split a list at the first byte satisfying `stop`: returns the matched
prefix and the remainder (whose head satisfies `stop`), or `none` when no
byte satisfies `stop`. Helper for nom's `split_at_position1`. -/
def splitAtPos (stop : Nat → Bool) : List Nat → Option (List Nat × List Nat)
  | [] => none
  | c :: rest =>
    if stop c then some ([], c :: rest)
    else
      match splitAtPos stop rest with
      | none => none
      | some (m, r) => some (c :: m, r)

/-- nom 5 `bytes::streaming::take_while1 p`: longest nonempty run of bytes
satisfying `p`; `Error(TakeWhile1)` if the first byte fails `p`;
`Incomplete(Size(1))` if every available byte satisfies `p`. -/
def takeWhile1P (p : Nat → Bool) (s : List Nat) : PResult (List Nat) :=
  match splitAtPos (fun c => !(p c)) s with
  | none => .incomplete 1
  | some ([], _) => .error .takeWhile1
  | some (m, r) => .ok r m

/-- nom 5 `bytes::streaming::tag t`: `Incomplete(Size(|t|))` when the input is
a proper prefix of the tag, `Error(Tag)` on a mismatch. -/
def tagP (t : List Nat) (s : List Nat) : PResult (List Nat) :=
  if t.isPrefixOf s then .ok (s.drop t.length) t
  else if s.isPrefixOf t then .incomplete t.length
  else .error .tag

/-- Value of a little-endian byte sequence (least significant byte first). -/
def leVal : List Nat → Nat
  | [] => 0
  | b :: r => b + 256 * leVal r

/-- nom 5 `number::streaming::le_u64`: 8 little-endian bytes;
`Incomplete(Size(8))` when fewer than 8 bytes are available. -/
def le_u64 (s : List Nat) : PResult Nat :=
  if s.length < 8 then .incomplete 8
  else .ok (s.drop 8) (leVal (s.take 8))

/-- nom 5 `bytes::streaming::take n`: `Incomplete(Size(n))` when fewer than
`n` bytes are available. -/
def takeP (n : Nat) (s : List Nat) : PResult (List Nat) :=
  if s.length < n then .incomplete n
  else .ok (s.drop n) (s.take n)

/-- nom `combinator::opt p`: recovers from `Err::Error` (returning `none` and
consuming nothing) but propagates `Incomplete`. -/
def optP {α : Type} (p : List Nat → PResult α) (s : List Nat) : PResult (Option α) :=
  match p s with
  | .ok r v => .ok r (some v)
  | .error _ => .ok s none
  | .incomplete n => .incomplete n
  | .crash => .crash

/-- `EQUALS` (`b'='`). -/
abbrev EQUALS : Nat := 61

/-- `NEWLINE` (`b'\n'`). -/
abbrev NEWLINE : Nat := 10

/-- `parse_key`: `take_while1(|c| c != EQUALS && c != NEWLINE)`. -/
def parse_key (s : List Nat) : PResult (List Nat) :=
  takeWhile1P (fun c => c != EQUALS && c != NEWLINE) s

/-- `parse_value_binary_int`: `le_u64` then `take(u as usize)` (the `u64` to
`usize` cast is the identity on a 64-bit target). -/
def parse_value_binary_int (s : List Nat) : PResult (List Nat) :=
  (le_u64 s).bind fun r u => takeP u r

/-- `parse_value_binary`: `tuple((tag("\n"), parse_value_binary_int, tag("\n")))`,
returning the middle component. -/
def parse_value_binary (s : List Nat) : PResult (List Nat) :=
  (tagP [NEWLINE] s).bind fun r _ =>
    (parse_value_binary_int r).bind fun r2 v =>
      (tagP [NEWLINE] r2).bind fun r3 _ => .ok r3 v

/-- `parse_value_string`: `tuple((tag("="), opt(take_while1(|c| c != NEWLINE)), tag("\n")))`,
returning the optional run (empty when absent). -/
def parse_value_string (s : List Nat) : PResult (List Nat) :=
  (tagP [EQUALS] s).bind fun r _ =>
    (optP (takeWhile1P (fun c => c != NEWLINE)) r).bind fun r2 v =>
      (tagP [NEWLINE] r2).bind fun r3 _ => .ok r3 (v.getD [])

/-- `parse_value`: dispatch on `s[0]` — an unchecked index that panics on an
empty slice (modelled by `crash`); any byte other than `=` or newline is
`Err(Err::Error((&b""[..], ErrorKind::Tag)))`. -/
def parse_value (s : List Nat) : PResult (List Nat) :=
  match s with
  | [] => .crash
  | c :: _ =>
    if c = EQUALS then parse_value_string s
    else if c = NEWLINE then parse_value_binary s
    else .error .tag

/-- A key-value pair as parsed from the stream: `type KVP<'a> = (&[u8], &[u8])`. -/
abbrev KVP := List Nat × List Nat

/-- `parse_key_value`: `pair(parse_key, parse_value)`. -/
def parse_key_value (s : List Nat) : PResult KVP :=
  (parse_key s).bind fun r k =>
    (parse_value r).bind fun r2 v => .ok r2 (k, v)

/-- `parse_end_of_msg`: try `tag("\n")` (a lone newline is the record
separator, yielding `None`); on `Error(Tag)` fall through to
`parse_key_value`; propagate every other error. -/
def parse_end_of_msg (s : List Nat) : PResult (Option KVP) :=
  match tagP [NEWLINE] s with
  | .ok _ _ => .ok (s.drop 1) none
  | .error .tag =>
    match parse_key_value s with
    | .ok r kv => .ok r (some kv)
    | .error k => .error k
    | .incomplete n => .incomplete n
    | .crash => .crash
  | .error k => .error k
  | .incomplete n => .incomplete n
  | .crash => .crash

/-- `JournalMessage`: an ordered list of raw (name, value) byte pairs. -/
structure JournalMessage where
  fields : List KVP
deriving DecidableEq, Repr

/-- ASCII bytes of a (plain-ASCII) string literal. -/
def strBytes (s : String) : List Nat := s.data.map Char.toNat

/-- Validity of a byte sequence as UTF-8, as checked by Rust's
`std::str::from_utf8` (standard UTF-8: no overlongs, no surrogates,
code points at most `0x10FFFF`). -/
def isValidUtf8 : List Nat → Bool
  | [] => true
  | c :: rest =>
    if c < 0x80 then isValidUtf8 rest
    else if 0xC2 ≤ c ∧ c ≤ 0xDF then
      match rest with
      | c1 :: r => (0x80 ≤ c1 && c1 ≤ 0xBF) && isValidUtf8 r
      | [] => false
    else if c = 0xE0 then
      match rest with
      | c1 :: c2 :: r =>
        (0xA0 ≤ c1 && c1 ≤ 0xBF) && (0x80 ≤ c2 && c2 ≤ 0xBF) && isValidUtf8 r
      | _ => false
    else if (0xE1 ≤ c ∧ c ≤ 0xEC) ∨ c = 0xEE ∨ c = 0xEF then
      match rest with
      | c1 :: c2 :: r =>
        (0x80 ≤ c1 && c1 ≤ 0xBF) && (0x80 ≤ c2 && c2 ≤ 0xBF) && isValidUtf8 r
      | _ => false
    else if c = 0xED then
      match rest with
      | c1 :: c2 :: r =>
        (0x80 ≤ c1 && c1 ≤ 0x9F) && (0x80 ≤ c2 && c2 ≤ 0xBF) && isValidUtf8 r
      | _ => false
    else if c = 0xF0 then
      match rest with
      | c1 :: c2 :: c3 :: r =>
        (0x90 ≤ c1 && c1 ≤ 0xBF) && (0x80 ≤ c2 && c2 ≤ 0xBF) &&
          (0x80 ≤ c3 && c3 ≤ 0xBF) && isValidUtf8 r
      | _ => false
    else if 0xF1 ≤ c ∧ c ≤ 0xF3 then
      match rest with
      | c1 :: c2 :: c3 :: r =>
        (0x80 ≤ c1 && c1 ≤ 0xBF) && (0x80 ≤ c2 && c2 ≤ 0xBF) &&
          (0x80 ≤ c3 && c3 ≤ 0xBF) && isValidUtf8 r
      | _ => false
    else if c = 0xF4 then
      match rest with
      | c1 :: c2 :: c3 :: r =>
        (0x80 ≤ c1 && c1 ≤ 0x8F) && (0x80 ≤ c2 && c2 ≤ 0xBF) &&
          (0x80 ≤ c3 && c3 ≤ 0xBF) && isValidUtf8 r
      | _ => false
    else false

/-- Outcome of `JournalMessage::field`: `found v` is `Some(string)` (the
string's bytes are exactly `v`), `absent` is `None`, `crash` is the panic of
`std::str::from_utf8(..).unwrap()` on a non-UTF-8 value. -/
inductive FieldResult where
  | found (v : List Nat)
  | absent
  | crash
deriving DecidableEq, Repr

/-- First-match lookup over the field list, as in the `for` loop of
`JournalMessage::field`. -/
def fieldLookup (key : List Nat) : List KVP → FieldResult
  | [] => .absent
  | (k, v) :: rest =>
    if key = k then (if isValidUtf8 v then .found v else .crash)
    else fieldLookup key rest

/-- `JournalMessage::field`: scan fields in order; on the first name match,
return `std::str::from_utf8(&v).unwrap().to_owned()` (panics on invalid
UTF-8); `None` when no field has the given name. -/
def JournalMessage.field (m : JournalMessage) (key : List Nat) : FieldResult :=
  fieldLookup key m.fields

/-- `str::parse::<i64>` on the bytes of a string: optional sign followed by
one or more ASCII digits, within the `i64` range; anything else is `Err`. -/
def digitsVal : List Nat → Option Nat
  | [] => none
  | [d] => if 48 ≤ d ∧ d ≤ 57 then some (d - 48) else none
  | d :: rest =>
    if 48 ≤ d ∧ d ≤ 57 then
      match digitsVal rest with
      | some n => some ((d - 48) * 10 ^ rest.length + n)
      | none => none
    else none

/-- `str::parse::<i64>`: `[+|-]` then nonempty ASCII digits, rejecting
values outside `[-2^63, 2^63 - 1]` (Rust errors on overflow). -/
def parseI64 (s : List Nat) : Option Int :=
  match s with
  | 43 :: rest =>
    (digitsVal rest).bind fun n => if n ≤ 2 ^ 63 - 1 then some (n : Int) else none
  | 45 :: rest =>
    (digitsVal rest).bind fun n => if n ≤ 2 ^ 63 then some (-(n : Int)) else none
  | _ =>
    (digitsVal s).bind fun n => if n ≤ 2 ^ 63 - 1 then some (n : Int) else none

/-- Outcome of `JournalMessage::date_time`: a UTC timestamp is modelled as
its seconds-since-epoch and the nanosecond argument handed to chrono
(`NaiveDateTime::from_timestamp`); `crash` models a panic (non-UTF-8 field
value in the lookup, or chrono rejecting an out-of-range nanosecond value). -/
inductive DtResult where
  | someD (secs : Int) (nanos : Nat)
  | noneD
  | crash
deriving DecidableEq, Repr

/-- `_SOURCE_REALTIME_TIMESTAMP`. -/
def KEY_SOURCE_RT : List Nat := strBytes "_SOURCE_REALTIME_TIMESTAMP"

/-- `__REALTIME_TIMESTAMP`. -/
def KEY_STREAM_RT : List Nat := strBytes "__REALTIME_TIMESTAMP"

/-- `_SYSTEMD_UNIT`. -/
def KEY_UNIT : List Nat := strBytes "_SYSTEMD_UNIT"

/-- The conversion step of `date_time` applied to the looked-up string:
`parse::<i64>` (error ⇒ `None`), `secs = micros / 1_000_000` (Rust `/` on
`i64` truncates toward zero, i.e. `Int.tdiv`), `nanos = micros - secs * 1_000_000`,
`nanos as u32` (wrap modulo `2^32`). Modelled from chrono:
`NaiveDateTime::from_timestamp` panics when the nanosecond argument is
`2_000_000_000` or more (the seconds range limit of chrono is not modelled). -/
def dtOfBytes (s : List Nat) : DtResult :=
  match parseI64 s with
  | none => .noneD
  | some micros =>
    let secs : Int := Int.tdiv micros 1000000
    let nanos : Int := micros - secs * 1000000
    let nanosU32 : Nat := (nanos % (2 ^ 32)).toNat
    if nanosU32 ≥ 2000000000 then .crash
    else .someD secs nanosU32

/-- `JournalMessage::date_time`: prefer `_SOURCE_REALTIME_TIMESTAMP`, else
`__REALTIME_TIMESTAMP`, else `None`; then parse and convert. -/
def JournalMessage.date_time (m : JournalMessage) : DtResult :=
  match m.field KEY_SOURCE_RT with
  | .crash => .crash
  | .found s => dtOfBytes s
  | .absent =>
    match m.field KEY_STREAM_RT with
    | .crash => .crash
    | .found s => dtOfBytes s
    | .absent => .noneD

/-- An absolute timestamp as compared by chrono (`DateTime` comparison is by
instant): seconds paired with nanoseconds, ordered lexicographically. -/
abbrev Ts := Int × Nat

/-- chrono `<` on timestamps (lexicographic on seconds then nanoseconds). -/
def tsLt (a b : Ts) : Bool :=
  a.1 < b.1 || (a.1 = b.1 && a.2 < b.2)

/-- The `Filter` CLI structure: optional unit name, optional inclusive
since/until bounds (already resolved to absolute timestamps), optional line
count (unused by `should_filter`). Named `JFilter` because `Filter` and the
field name `until` are taken by Lean/Mathlib. -/
structure JFilter where
  unit : Option (List Nat)
  since : Option Ts
  untilF : Option Ts
  lines : Option Nat
deriving DecidableEq, Repr

/-- `JournalMessage::systemd_unit`: `field(_SYSTEMD_UNIT).unwrap_or("")` —
`none` models the lookup panic on a non-UTF-8 value. -/
def JournalMessage.systemd_unit (m : JournalMessage) : Option (List Nat) :=
  match m.field KEY_UNIT with
  | .crash => none
  | .found v => some v
  | .absent => some []

/-- `JournalBackupReader::should_filter`: `None` filter accepts everything;
otherwise the unit, since and until criteria are checked in that order, each
able to set the flag; `none` models a panic inside a criterion (non-UTF-8
field value). `time < since` and `time > until` reject; equality passes. -/
def shouldFilter (fil : Option JFilter) (msg : JournalMessage) : Option Bool :=
  match fil with
  | none => some false
  | some f =>
    let uFlag : Option Bool :=
      match f.unit with
      | none => some false
      | some u =>
        match msg.systemd_unit with
        | none => none
        | some s => some (u ≠ s)
    let sFlag : Option Bool :=
      match f.since with
      | none => some false
      | some fs =>
        match msg.date_time with
        | .crash => none
        | .noneD => some false
        | .someD se na => some (tsLt (se, na) fs)
    let untilFlag : Option Bool :=
      match f.untilF with
      | none => some false
      | some fu =>
        match msg.date_time with
        | .crash => none
        | .noneD => some false
        | .someD se na => some (tsLt fu (se, na))
    match uFlag, sFlag, untilFlag with
    | some a, some b, some c => some (a || b || c)
    | none, _, _ => none
    | some _, none, _ => none
    | some _, some _, none => none

/-- One event delivered by the boxed `Read` source: a chunk of bytes
(`Ok(l)` with the bytes written into the 32 KiB buffer) or an I/O error
(`Err(e)`). A chunk longer than 32768 bytes is delivered 32768 bytes per
`read` call, as the fixed `[0u8; 32_768]` buffer dictates. -/
inductive ReadEvent where
  | chunk (bytes : List Nat)
  | ioError
deriving DecidableEq, Repr

/-- The state of a `JournalBackupReader`: the pending source events, the
`remainder` buffer, the `remainder_read` consumed offset, and the filter. -/
structure RState where
  source : List ReadEvent
  remainder : List Nat
  remainderRead : Nat
  filter : Option JFilter
deriving DecidableEq, Repr

/-- `JournalBackupReader::read`: drop the consumed prefix of `remainder`
(compaction), reset `remainder_read`, then perform one `reader.read` into the
32 KiB buffer: append the delivered bytes and return `Some(l)`; an exhausted
source returns `Some(0)` (EOF); an I/O error is logged to stderr and `None`
is returned, the error event being consumed. -/
def readStep (st : RState) : Option Nat × RState :=
  let base := st.remainder.drop st.remainderRead
  match st.source with
  | [] => (some 0, ⟨[], base, 0, st.filter⟩)
  | .chunk c :: rest =>
    let d := c.take 32768
    let c' := c.drop 32768
    (some d.length,
      ⟨(if c'.isEmpty then rest else .chunk c' :: rest), base ++ d, 0, st.filter⟩)
  | .ioError :: rest => (none, ⟨rest, base, 0, st.filter⟩)

/-- Outcome of one `JournalBackupReader::next` call. `yield m st` is
`Some(m)` leaving state `st`; `stop st` is `None`; `panicRunaway st` is the
`panic!("Runaway memory growth in journal parsing")` raised at state `st`;
`panicParse` is the `panic!("Unexpected parser error: ..")`; `crash` is any
other panic (non-UTF-8 unwrap inside `should_filter`); `outOfFuel` marks
fuel exhaustion of the model only. -/
inductive NextOutcome where
  | yield (msg : JournalMessage) (st : RState)
  | stop (st : RState)
  | panicRunaway (st : RState)
  | panicParse
  | crash
  | outOfFuel
deriving DecidableEq, Repr

/-- The `while self.remainder.len() < 10_000_000` loop of
`JournalBackupReader::next`, with the in-progress field list `acc`. The
second component is a ghost observation: the maximum `remainder.len()` seen
at the head of each loop iteration (it does not influence the outcome). -/
def nextLoop : Nat → RState → List KVP → NextOutcome × Nat
  | 0, st, _ => (.outOfFuel, st.remainder.length)
  | Nat.succ f, st, acc =>
    if st.remainder.length < 10000000 then
      match parse_end_of_msg (st.remainder.drop st.remainderRead) with
      | .ok rem kvp =>
        let st' : RState := ⟨st.source, st.remainder, st.remainder.length - rem.length, st.filter⟩
        match kvp with
        | some kv =>
          let r := nextLoop f st' (acc ++ [kv])
          (r.1, max st.remainder.length r.2)
        | none =>
          match shouldFilter st.filter ⟨acc⟩ with
          | some false => (.yield ⟨acc⟩ st', st.remainder.length)
          | some true =>
            let r := nextLoop f st' []
            (r.1, max st.remainder.length r.2)
          | none => (.crash, st.remainder.length)
      | .incomplete _ =>
        match readStep st with
        | (some l, st₁) =>
          if l = 0 then (.stop st₁, st.remainder.length)
          else
            let r := nextLoop f st₁ acc
            (r.1, max st.remainder.length r.2)
        | (none, st₁) => (.stop st₁, st.remainder.length)
      | .error _ => (.panicParse, st.remainder.length)
      | .crash => (.crash, st.remainder.length)
    else (.panicRunaway st, st.remainder.length)

/-- `JournalBackupReader::next`: if the whole `remainder` vector is empty,
read once first (EOF or I/O error ends the sequence); then run the loop with
an empty in-progress record. -/
def next (f : Nat) (st : RState) : NextOutcome × Nat :=
  if st.remainder.isEmpty then
    match readStep st with
    | (some l, st₁) =>
      if l = 0 then (.stop st₁, st₁.remainder.length)
      else nextLoop f st₁ []
    | (none, st₁) => (.stop st₁, st₁.remainder.length)
  else nextLoop f st []

/-- Drive the iterator to exhaustion: the list of yielded records, or `none`
when the run panics, crashes, or fuel runs out. The second component is the
ghost maximum buffered length over the whole run. -/
def decodeAll : Nat → RState → Option (List JournalMessage) × Nat
  | 0, st => (none, st.remainder.length)
  | Nat.succ f, st =>
    match next (Nat.succ f) st with
    | (.yield m st', g) =>
      let r := decodeAll f st'
      (r.1.map (fun l => m :: l), max g r.2)
    | (.stop _, g) => (some [], g)
    | (_, g) => (none, g)

/-- Initial reader state (`JournalBackupReader::new`). -/
def initState (src : List ReadEvent) (fil : Option JFilter) : RState :=
  ⟨src, [], 0, fil⟩

/-- Outcome of assembling one record directly from a complete byte string
(the chunking-free reference decoder used to state stream-splitting
equivalence): one finished record and the remaining bytes, normal end of
input (a partial tail is discarded), or a fatal parse error. -/
inductive RefOut where
  | yieldR (m : JournalMessage) (rest : List Nat)
  | endR
  | fatalR
deriving DecidableEq, Repr

/-- Reference assembly of a single record from a byte string: repeat
`parse_end_of_msg`; a separator finishes the record, a field extends it,
insufficient input ends the stream, an error is fatal. -/
def refNext : Nat → List Nat → List KVP → RefOut
  | 0, _, _ => .fatalR
  | Nat.succ f, s, acc =>
    match parse_end_of_msg s with
    | .ok rem none => .yieldR ⟨acc⟩ rem
    | .ok rem (some kv) => refNext f rem (acc ++ [kv])
    | .incomplete _ => .endR
    | .error _ => .fatalR
    | .crash => .fatalR

/-- Reference decoding of a whole byte string into its record sequence
(`none` on a fatal parse error). -/
def refAll : Nat → List Nat → Option (List JournalMessage)
  | 0, _ => none
  | Nat.succ f, s =>
    match refNext (s.length + 1) s [] with
    | .yieldR m rest => (refAll f rest).map (fun l => m :: l)
    | .endR => some []
    | .fatalR => none

/-- Bytes of all chunks still pending in the source. -/
def flatSrc : List ReadEvent → List Nat
  | [] => []
  | .chunk c :: rest => c ++ flatSrc rest
  | .ioError :: rest => flatSrc rest

/-- The unconsumed slice `&remainder[remainder_read..]`. -/
def unconsumed (st : RState) : List Nat := st.remainder.drop st.remainderRead

/-- All bytes the reader has not yet consumed: the unconsumed buffer slice
followed by everything still in the source. -/
def virtBytes (st : RState) : List Nat := unconsumed st ++ flatSrc st.source

/-- Termination measure for the `next` loop: every loop iteration strictly
decreases it (a successful parse consumes buffered bytes; a refill moves
bytes out of the source). -/
def loopMeasure (st : RState) : Nat :=
  (unconsumed st).length + 2 * (flatSrc st.source).length + st.source.length + 1

/-- A source that never signals I/O errors and only reports a zero-length
read (an empty chunk) once no data remains: the shape of any honest
`Read` implementation split into refills. -/
def goodSource : List ReadEvent → Prop
  | [] => True
  | .chunk c :: rest => (c = [] → flatSrc rest = []) ∧ goodSource rest
  | .ioError :: _ => False

/-- Invariant tying a reader state to the correspondence proof: no filter,
a well-formed consumed offset, an honest source, and total outstanding bytes
below the runaway ceiling. -/
def invState (st : RState) : Prop :=
  st.filter = none ∧ st.remainderRead ≤ st.remainder.length ∧
    goodSource st.source ∧
    st.remainder.length + (flatSrc st.source).length < 10000000

/-- A full binary-form field encoding: name, newline, 8 length bytes,
payload, terminating newline. -/
def fullBin (key d pay : List Nat) : List Nat :=
  key ++ (NEWLINE :: (d ++ (pay ++ [NEWLINE])))

/-- The stream used to exercise the runaway-growth bound: one field whose
8-byte length prefix declares 2^32 = 4294967296 bytes (far beyond the
10,000,000-byte ceiling), followed by 10,100,000 payload bytes. -/
def c5Stream : List Nat :=
  65 :: 10 :: ([0, 0, 0, 0, 1, 0, 0, 0] ++ List.replicate 10100000 48)

/-- The reader state after `k` refills of `c5Stream`: the first `32768 * k`
bytes buffered and none of them consumed. -/
def c5State (k : Nat) : RState :=
  ⟨[.chunk (c5Stream.drop (32768 * k))], c5Stream.take (32768 * k), 0, none⟩

/-- A complete, valid journal export byte string of total length exactly
10,000,000: one binary field named `A`, 8 length bytes declaring 9,999,988
(little endian: 116 + 256*150 + 65536*152), exactly 9,999,988 payload bytes,
the field-terminating newline, and the record-separating blank line. -/
def cxStream : List Nat :=
  65 :: 10 :: ([116, 150, 152, 0, 0, 0, 0, 0] ++ (List.replicate 9999988 48 ++ [10, 10]))

/-- The first 9,999,999 bytes of `cxStream`: the complete field including its
terminating newline, missing only the final record separator. -/
def cxSplit1 : List Nat := cxStream.take 9999999

/-- Whole-feed reader state after `k` full refills of `cxStream`. -/
def cxState (k : Nat) : RState :=
  ⟨[.chunk (cxStream.drop (32768 * k))], cxStream.take (32768 * k), 0, none⟩

/-- Split-feed reader state after `k` full refills of the first chunk, the
second chunk (the final separator byte) still pending. -/
def cxsState (k : Nat) : RState :=
  ⟨[.chunk (cxSplit1.drop (32768 * k)), .chunk (cxStream.drop 9999999)],
    cxSplit1.take (32768 * k), 0, none⟩

/-- Whole-feed state after the final partial refill: the entire 10,000,000
bytes buffered, source exhausted. -/
def cxFull : RState := ⟨[], cxStream, 0, none⟩

/-- Split-feed state after the final partial refill of the first chunk:
9,999,999 bytes buffered, the separator chunk still pending. -/
def cxsFull : RState := ⟨[.chunk (cxStream.drop 9999999)], cxSplit1, 0, none⟩

/- Sanity checks mirroring the unit tests in `parser.rs`. -/

theorem parse_key_test₁ : parse_key [108, 97, 116, 105, 110, 61, 49, 50, 51] =
    .ok [61, 49, 50, 51] [108, 97, 116, 105, 110] := by decide

theorem parse_key_test₂ : parse_key [108, 97, 116, 105, 110] = .incomplete 1 := by decide

theorem parse_key_test₃ : parse_key [61, 49, 50, 51] = .error .takeWhile1 := by decide

theorem parse_value_test₁ : parse_value [61, 49, 50, 51, 10] = .ok [] [49, 50, 51] := by decide

theorem parse_value_test₂ : parse_value [61, 108, 97, 116, 105, 110] = .incomplete 1 := by decide

theorem parse_value_test₃ :
    parse_value [0x0A, 0x07, 0x00, 0x00, 0x00, 0x00, 0x00, 0x00, 0x00,
      0x66, 0x6f, 0x6f, 0x0a, 0x62, 0x61, 0x72, 0x0a, 0x66, 0x6f, 0x6f] =
    .ok [0x66, 0x6f, 0x6f] [0x66, 0x6f, 0x6f, 0x0a, 0x62, 0x61, 0x72] := by decide

theorem parse_value_test₄ :
    parse_value [0x0A, 0x07, 0x00, 0x00, 0x00, 0x00, 0x00, 0x00, 0x00, 0x66] =
    .incomplete 7 := by decide

theorem parse_value_test₅ : parse_value [0x0A, 0x07] = .incomplete 8 := by decide

theorem parse_key_value_test₁ :
    parse_key_value [117, 105, 100, 61, 49, 10, 49, 50, 51] =
    .ok [49, 50, 51] ([117, 105, 100], [49]) := by decide

theorem parse_key_value_test₂ : parse_key_value [117, 105, 100] = .incomplete 1 := by decide

theorem parse_key_value_test₃ : parse_key_value [117, 105, 100, 61] = .incomplete 1 := by decide

theorem parse_end_of_msg_test₁ :
    parse_end_of_msg [117, 105, 100, 61, 49, 10, 49, 50, 51] =
    .ok [49, 50, 51] (some ([117, 105, 100], [49])) := by decide

theorem parse_end_of_msg_test₂ : parse_end_of_msg [] = .incomplete 1 := by decide

theorem parse_end_of_msg_test₃ : parse_end_of_msg [10] = .ok [] none := by decide

theorem parse_end_of_msg_test₄ : parse_end_of_msg [10, 117] = .ok [117] none := by decide

theorem decode_one_record :
    (decodeAll 20 (initState [.chunk [97, 61, 49, 10, 10]] none)).1 =
    some [⟨[([97], [49])]⟩] := by decide

theorem tagP_cons_self (c : Nat) (t : List Nat) : tagP [c] (c :: t) = .ok t [c] := by
  simp [tagP, List.isPrefixOf]

theorem tagP_nil (t : List Nat) (h : t ≠ []) : tagP t [] = .incomplete t.length := by
  cases t with
  | nil => exact absurd rfl h
  | cons c r => simp [tagP, List.isPrefixOf]

theorem tagP_cons_ne (c b : Nat) (t : List Nat) (h : b ≠ c) :
    tagP [c] (b :: t) = .error .tag := by
  simp [tagP, List.isPrefixOf, h, Ne.symm h, beq_eq_false_iff_ne]

theorem splitAtPos_eq_some (stop : Nat → Bool) :
    ∀ s m r, splitAtPos stop s = some (m, r) →
      s = m ++ r ∧ (∀ b ∈ m, stop b = false) ∧ ∃ c rest, r = c :: rest ∧ stop c = true := by
  intro s
  induction s with
  | nil => intro m r h; simp [splitAtPos] at h
  | cons c cs ih =>
    intro m r h
    by_cases hc : stop c
    · simp [splitAtPos, hc] at h
      obtain ⟨hm, hr⟩ := h
      subst hm; subst hr
      exact ⟨rfl, by simp, c, cs, rfl, hc⟩
    · simp [splitAtPos, hc] at h
      cases h' : splitAtPos stop cs with
      | none => rw [h'] at h; simp at h
      | some p =>
        rw [h'] at h
        obtain ⟨m', r'⟩ := p
        simp at h
        obtain ⟨hm, hr⟩ := h
        obtain ⟨hs, hall, c', rest', hr', hc'⟩ := ih m' r' h'
        subst hm; subst hr
        refine ⟨by simp [hs], ?_, c', rest', hr', hc'⟩
        intro b hb
        rcases List.mem_cons.mp hb with h1 | h2
        · subst h1; simpa using hc
        · exact hall b h2

theorem splitAtPos_none_of_all (stop : Nat → Bool) :
    ∀ s, (∀ b ∈ s, stop b = false) → splitAtPos stop s = none := by
  intro s
  induction s with
  | nil => intro _; rfl
  | cons c cs ih =>
    intro h
    have hc : stop c = false := h c (List.mem_cons_self c cs)
    simp [splitAtPos, hc, ih fun b hb => h b (List.mem_cons_of_mem c hb)]

theorem splitAtPos_append (stop : Nat → Bool) :
    ∀ m b X, (∀ c ∈ m, stop c = false) → stop b = true →
      splitAtPos stop (m ++ b :: X) = some (m, b :: X) := by
  intro m
  induction m with
  | nil => intro b X _ hb; simp [splitAtPos, hb]
  | cons c cs ih =>
    intro b X hm hb
    have hc : stop c = false := hm c (List.mem_cons_self c cs)
    simp [splitAtPos, hc, ih b X (fun d hd => hm d (List.mem_cons_of_mem c hd)) hb]

theorem takeWhile1P_ok_inv (p : Nat → Bool) (s r v : List Nat)
    (h : takeWhile1P p s = .ok r v) :
    v ≠ [] ∧ s = v ++ r ∧ (∀ b ∈ v, p b = true) ∧
      ∃ c rest, r = c :: rest ∧ p c = false := by
  unfold takeWhile1P at h
  cases hs : splitAtPos (fun c => !(p c)) s with
  | none => rw [hs] at h; simp at h
  | some pr =>
    obtain ⟨m, r'⟩ := pr
    rw [hs] at h
    obtain ⟨hse, hall, c, rest, hr', hc⟩ := splitAtPos_eq_some _ s m r' hs
    cases m with
    | nil => simp at h
    | cons a as =>
      simp at h
      obtain ⟨hr, hv⟩ := h
      subst hr; subst hv
      refine ⟨by simp, hse, ?_, c, rest, hr', by simpa using hc⟩
      intro b hb
      have := hall b hb
      simpa using this

theorem takeWhile1P_incomplete_of_all (p : Nat → Bool) (s : List Nat)
    (h : ∀ b ∈ s, p b = true) : takeWhile1P p s = .incomplete 1 := by
  unfold takeWhile1P
  rw [splitAtPos_none_of_all _ s (fun b hb => by simp [h b hb])]

theorem takeWhile1P_append (p : Nat → Bool) (m : List Nat) (b : Nat) (X : List Nat)
    (hm : m ≠ []) (hall : ∀ c ∈ m, p c = true) (hb : p b = false) :
    takeWhile1P p (m ++ b :: X) = .ok (b :: X) m := by
  unfold takeWhile1P
  rw [splitAtPos_append _ m b X (fun c hc => by simp [hall c hc]) (by simp [hb])]
  cases m with
  | nil => exact absurd rfl hm
  | cons a as => rfl

theorem le_u64_append (d X : List Nat) (h8 : d.length = 8) :
    le_u64 (d ++ X) = .ok X (leVal d) := by
  unfold le_u64
  rw [if_neg (by simp [h8])]
  rw [← h8, List.take_left, List.drop_left]

theorem takeP_append (pay X : List Nat) (n : Nat) (hn : pay.length = n) :
    takeP n (pay ++ X) = .ok X pay := by
  unfold takeP
  rw [← hn, if_neg (by simp), List.take_left, List.drop_left]

theorem parse_value_binary_int_append (d pay X : List Nat) (h8 : d.length = 8)
    (hn : pay.length = leVal d) :
    parse_value_binary_int (d ++ (pay ++ X)) = .ok X pay := by
  unfold parse_value_binary_int
  rw [le_u64_append d (pay ++ X) h8]
  show takeP (leVal d) (pay ++ X) = .ok X pay
  exact takeP_append pay X _ hn

/-- C2: a binary-encoded field with declared little-endian length `n`
(arbitrary 8 length bytes `d` with value `n`) decodes to exactly the `n`
payload bytes, unchanged, regardless of their values (newlines and zero
bytes included). -/
theorem claim2_binary_length_exact (d pay rest : List Nat) (h8 : d.length = 8)
    (hn : pay.length = leVal d) :
    parse_value_binary (NEWLINE :: (d ++ (pay ++ NEWLINE :: rest))) = .ok rest pay := by
  unfold parse_value_binary
  rw [tagP_cons_self]
  show PResult.bind (parse_value_binary_int (d ++ (pay ++ NEWLINE :: rest))) _ = _
  rw [parse_value_binary_int_append d pay (NEWLINE :: rest) h8 hn]
  show PResult.bind (tagP [NEWLINE] (NEWLINE :: rest)) _ = _
  rw [tagP_cons_self]
  rfl

/-- C2 witness: the spec's end-to-end example — length 7, payload
`foo\nbar` with its embedded newline — decodes to exactly those 7 bytes. -/
theorem claim2_binary_length_exact_witness :
    parse_value_binary (NEWLINE :: ([7, 0, 0, 0, 0, 0, 0, 0] ++
      ([102, 111, 111, 10, 98, 97, 114] ++ NEWLINE :: []))) =
    .ok [] [102, 111, 111, 10, 98, 97, 114] :=
  claim2_binary_length_exact [7, 0, 0, 0, 0, 0, 0, 0] [102, 111, 111, 10, 98, 97, 114] []
    (by decide) (by decide)

/-- C9 counterexample: with only one of the 8 length bytes available, the
code reports `Incomplete(Needed::Size(8))` — the total size of the length
field — not the 7 further bytes the claim says it specifies. -/
theorem claim9_counterexample :
    parse_value [10, 7] = .incomplete 8 ∧ (8 : Nat) ≠ 8 - 1 := by decide

theorem pvbi_short (s : List Nat) (h : s.length < 8) :
    parse_value_binary_int s = .incomplete 8 := by
  unfold parse_value_binary_int le_u64
  rw [if_pos h]
  rfl

theorem pvbi_mid (d pay : List Nat) (h8 : d.length = 8) (hlt : pay.length < leVal d) :
    parse_value_binary_int (d ++ pay) = .incomplete (leVal d) := by
  unfold parse_value_binary_int
  rw [le_u64_append d pay h8]
  show takeP (leVal d) pay = _
  unfold takeP
  rw [if_pos hlt]

theorem keyPred_key (key : List Nat) (hkey : ∀ c ∈ key, c ≠ EQUALS ∧ c ≠ NEWLINE) :
    ∀ c ∈ key, (c != EQUALS && c != NEWLINE) = true := by
  intro c hc
  simp [bne_iff_ne, (hkey c hc).1, (hkey c hc).2]


theorem pvb_truncated (d pay : List Nat) (t : Nat) (h8 : d.length = 8)
    (hP : pay.length = leVal d) (ht : t ≤ 8 + pay.length) :
    ∃ m, parse_value_binary (NEWLINE :: (d ++ (pay ++ [NEWLINE])).take t) = .incomplete m := by
  set Y : List Nat := d ++ (pay ++ [NEWLINE]) with hYdef
  have hstep : ∀ m, parse_value_binary_int (Y.take t) = .incomplete m →
      parse_value_binary (NEWLINE :: Y.take t) = .incomplete m := by
    intro m hm
    unfold parse_value_binary
    rw [tagP_cons_self]
    show PResult.bind (parse_value_binary_int (Y.take t)) _ = _
    rw [hm]
    rfl
  rcases lt_or_le t 8 with h8t | h8t
  · refine ⟨8, hstep 8 (pvbi_short _ ?_)⟩
    rw [List.length_take]
    have : Y.length = 8 + (pay.length + 1) := by simp [hYdef, h8]
    omega
  · have hYt : Y.take t = d ++ (pay ++ [NEWLINE]).take (t - 8) := by
      rw [hYdef, List.take_append_eq_append_take, List.take_of_length_le (by omega)]
      congr 2
      omega
    rcases lt_or_le (t - 8) pay.length with hlt | hge
    · refine ⟨leVal d, hstep (leVal d) ?_⟩
      rw [hYt, List.take_append_of_le_length (le_of_lt hlt)]
      refine pvbi_mid d _ h8 ?_
      rw [List.length_take]
      omega
    · have hteq : t - 8 = pay.length := by omega
      have hpayt : (pay ++ [NEWLINE]).take (t - 8) = pay := by
        rw [hteq]
        exact List.take_left pay [NEWLINE]
      have hpvbi : parse_value_binary_int (d ++ pay) = .ok [] pay := by
        have h := parse_value_binary_int_append d pay [] h8 hP
        simpa using h
      refine ⟨1, ?_⟩
      rw [hYt, hpayt]
      unfold parse_value_binary
      rw [tagP_cons_self]
      simp only [PResult.bind]
      rw [hpvbi]
      simp only [PResult.bind]
      rw [tagP_nil [NEWLINE] (by simp)]
      simp [PResult.bind]

/-- C9 amended: truncation anywhere inside a binary field is always reported
as a resumable `Incomplete`, never as a structural error or a panic; but the
byte count carried is the total size of the element being read (the full
8 bytes of the length field, the full declared payload length), not the
remaining difference the claim describes. -/
theorem claim9_amended :
    (∀ s : List Nat, s.length < 8 → parse_value_binary_int s = .incomplete 8) ∧
    (∀ d pay : List Nat, d.length = 8 → pay.length < leVal d →
      parse_value_binary_int (d ++ pay) = .incomplete (leVal d)) ∧
    (∀ key d pay : List Nat, ∀ j : Nat, key ≠ [] →
      (∀ c ∈ key, c ≠ EQUALS ∧ c ≠ NEWLINE) → d.length = 8 → pay.length = leVal d →
      j < (fullBin key d pay).length →
      ∃ m, parse_key_value ((fullBin key d pay).take j) = .incomplete m) := by
  refine ⟨pvbi_short, pvbi_mid, ?_⟩
  intro key d pay j hk hkey h8 hP hj
  have hpkey := keyPred_key key hkey
  have hfull : (fullBin key d pay).length = key.length + (1 + (8 + (pay.length + 1))) := by
    simp [fullBin, h8]
    omega
  rcases le_or_lt j key.length with hle | hgt
  · have ht : (fullBin key d pay).take j = key.take j := by
      unfold fullBin
      apply List.take_append_of_le_length hle
    have hik : parse_key (key.take j) = .incomplete 1 :=
      takeWhile1P_incomplete_of_all _ _ (fun b hb => hpkey b (List.mem_of_mem_take hb))
    refine ⟨1, ?_⟩
    rw [ht]
    show PResult.bind (parse_key (key.take j)) _ = _
    rw [hik]
    rfl
  · set t := j - key.length - 1 with htdef
    have hj' : j = key.length + (1 + t) := by omega
    have ht_le : t ≤ 8 + pay.length := by omega
    set Y : List Nat := d ++ (pay ++ [NEWLINE]) with hYdef
    have htake : (fullBin key d pay).take j = key ++ (NEWLINE :: Y.take t) := by
      unfold fullBin
      rw [hj', List.take_append (1 + t)]
      congr 1
      rw [Nat.add_comm 1 t]
      exact List.take_succ_cons
    have hpk : parse_key (key ++ (NEWLINE :: Y.take t)) = .ok (NEWLINE :: Y.take t) key :=
      takeWhile1P_append _ key NEWLINE (Y.take t) hk hpkey (by decide)
    obtain ⟨m, hm⟩ := pvb_truncated d pay t h8 hP ht_le
    have hpv : parse_value (NEWLINE :: Y.take t) = parse_value_binary (NEWLINE :: Y.take t) := by
      simp [parse_value, NEWLINE, EQUALS]
    refine ⟨m, ?_⟩
    rw [htake]
    show PResult.bind (parse_key (key ++ (NEWLINE :: Y.take t))) _ = _
    rw [hpk]
    show PResult.bind (parse_value (NEWLINE :: Y.take t)) _ = _
    rw [hpv, hm]
    rfl

/-- C9 amended witness: one length byte available out of 8 reports
`Incomplete(8)`; declared length 7 with 1 payload byte reports
`Incomplete(7)`; and a concrete truncation of a full binary field is
resumable. -/
theorem claim9_amended_witness :
    parse_value_binary_int [7] = .incomplete 8 ∧
    parse_value_binary_int ([7, 0, 0, 0, 0, 0, 0, 0] ++ [102]) = .incomplete 7 ∧
    ∃ m, parse_key_value ((fullBin [65] [2, 0, 0, 0, 0, 0, 0, 0] [103, 104]).take 5) =
      .incomplete m :=
  ⟨claim9_amended.1 [7] (by decide),
   by
    have h := claim9_amended.2.1 [7, 0, 0, 0, 0, 0, 0, 0] [102] (by decide) (by decide)
    simpa using h,
   claim9_amended.2.2 [65] [2, 0, 0, 0, 0, 0, 0, 0] [103, 104] 5 (by decide)
     (by decide) (by decide) (by decide) (by decide)⟩

/-- C10: a successful name parse always leaves a nonempty remainder whose
first byte is `=` or newline, so the unchecked `s[0]` in `parse_value`
cannot go out of bounds and the other-byte error branch is unreachable on
the `parse_key_value` path. -/
theorem claim10_dispatch_safe (s r k : List Nat) (h : parse_key s = .ok r k) :
    r ≠ [] ∧
      ((r.head? = some EQUALS ∧ parse_value r = parse_value_string r) ∨
       (r.head? = some NEWLINE ∧ parse_value r = parse_value_binary r)) := by
  obtain ⟨hk, hse, hall, c, rest, hr, hc⟩ := takeWhile1P_ok_inv _ s r k h
  subst hr
  have hor : c = EQUALS ∨ c = NEWLINE := by
    by_contra hno
    push_neg at hno
    simp [bne_iff_ne, hno.1, hno.2] at hc
  refine ⟨by simp, ?_⟩
  rcases hor with h1 | h1
  · subst h1
    exact Or.inl ⟨rfl, by simp [parse_value]⟩
  · subst h1
    exact Or.inr ⟨rfl, by simp [parse_value, NEWLINE, EQUALS]⟩

/-- C10 witness: after parsing the name `uid` of `uid=1\n`, the remainder
starts with `=` and dispatch picks the text form. -/
theorem claim10_dispatch_safe_witness :
    [61, 49, 10] ≠ [] ∧
      (([61, 49, 10].head? = some EQUALS ∧
        parse_value [61, 49, 10] = parse_value_string [61, 49, 10]) ∨
       ([61, 49, 10].head? = some NEWLINE ∧
        parse_value [61, 49, 10] = parse_value_binary [61, 49, 10])) :=
  claim10_dispatch_safe [117, 105, 100, 61, 49, 10] [61, 49, 10] [117, 105, 100] (by decide)

/-- C3 counterexample: a present field whose (binary-capable) value is the
single byte `0xFF` — not valid UTF-8 — makes the lookup panic
(`from_utf8(..).unwrap()`), so the lookup does not "never fail". -/
theorem claim3_counterexample :
    JournalMessage.field ⟨[([75], [255])]⟩ [75] = .crash ∧
      FieldResult.crash ≠ FieldResult.absent := by decide

theorem fieldLookup_absent (key : List Nat) :
    ∀ fields : List KVP, (∀ kv ∈ fields, kv.1 ≠ key) → fieldLookup key fields = .absent := by
  intro fields
  induction fields with
  | nil => intro _; rfl
  | cons kv rest ih =>
    intro h
    obtain ⟨k, v⟩ := kv
    have hk : k ≠ key := h (k, v) (List.mem_cons_self _ _)
    simp [fieldLookup, Ne.symm hk]
    exact ih fun kv hkv => h kv (List.mem_cons_of_mem _ hkv)

theorem fieldLookup_first (key v : List Nat) (post : List KVP) :
    ∀ pre : List KVP, (∀ kv ∈ pre, kv.1 ≠ key) →
      fieldLookup key (pre ++ (key, v) :: post) =
        (if isValidUtf8 v then .found v else .crash) := by
  intro pre
  induction pre with
  | nil => intro _; simp [fieldLookup]
  | cons kv rest ih =>
    intro h
    obtain ⟨k, w⟩ := kv
    have hk : k ≠ key := h (k, w) (List.mem_cons_self _ _)
    simp [fieldLookup, Ne.symm hk]
    exact ih fun kv hkv => h kv (List.mem_cons_of_mem _ hkv)

/-- C3 amended: the named-field lookup returns the first matching field's
value as text when that value is valid UTF-8, `None` when no field has the
name — but it panics when the first matching value is not valid UTF-8
(possible for binary-encoded fields). -/
theorem claim3_amended :
    (∀ (fields : List KVP) (key : List Nat), (∀ kv ∈ fields, kv.1 ≠ key) →
      JournalMessage.field ⟨fields⟩ key = .absent) ∧
    (∀ (pre post : List KVP) (key v : List Nat), (∀ kv ∈ pre, kv.1 ≠ key) →
      isValidUtf8 v = true →
      JournalMessage.field ⟨pre ++ (key, v) :: post⟩ key = .found v) ∧
    (∀ (pre post : List KVP) (key v : List Nat), (∀ kv ∈ pre, kv.1 ≠ key) →
      isValidUtf8 v = false →
      JournalMessage.field ⟨pre ++ (key, v) :: post⟩ key = .crash) := by
  refine ⟨?_, ?_, ?_⟩
  · intro fields key h
    exact fieldLookup_absent key fields h
  · intro pre post key v h hv
    show fieldLookup key (pre ++ (key, v) :: post) = _
    rw [fieldLookup_first key v post pre h, if_pos hv]
  · intro pre post key v h hv
    show fieldLookup key (pre ++ (key, v) :: post) = _
    rw [fieldLookup_first key v post pre h, hv]
    rfl

/-- C3 amended witness: absent name gives `absent`; a valid-UTF-8 value (the
second field, after a non-matching first) is returned as text; an invalid
value panics. -/
theorem claim3_amended_witness :
    JournalMessage.field ⟨[([75], [49])]⟩ [76] = .absent ∧
    JournalMessage.field ⟨[([75], [49])] ++ ([76], [102, 111, 111]) :: []⟩ [76] =
      .found [102, 111, 111] ∧
    JournalMessage.field ⟨[] ++ ([77], [255]) :: []⟩ [77] = .crash :=
  ⟨claim3_amended.1 [([75], [49])] [76] (by decide),
   claim3_amended.2.1 [([75], [49])] [] [76] [102, 111, 111] (by decide) (by decide),
   claim3_amended.2.2 [] [] [77] [255] (by decide) (by decide)⟩

/-- C6 counterexample: a present `_SOURCE_REALTIME_TIMESTAMP` whose value
byte `0xFF` is not parseable as an integer (it is not even UTF-8 text) makes
`date_time` panic in the lookup instead of treating the field as absent. -/
theorem claim6_counterexample :
    JournalMessage.date_time ⟨[(KEY_SOURCE_RT, [255])]⟩ = .crash ∧
      DtResult.crash ≠ DtResult.noneD := by decide

theorem dtOfBytes_nonneg (v : List Nat) (micros : Int) (hp : parseI64 v = some micros)
    (h0 : 0 ≤ micros) :
    dtOfBytes v = .someD (Int.tdiv micros 1000000) ((micros % 1000000).toNat) := by
  unfold dtOfBytes
  rw [hp]
  have htd : Int.tdiv micros 1000000 = micros / 1000000 :=
    Int.tdiv_eq_ediv (by omega) (by omega)
  have hrem : micros - Int.tdiv micros 1000000 * 1000000 = micros % 1000000 := by
    rw [htd]
    omega
  have hlt : 0 ≤ micros % 1000000 ∧ micros % 1000000 < 1000000 := by omega
  have hmod : micros % 1000000 % (2 ^ 32) = micros % 1000000 :=
    Int.emod_eq_of_lt hlt.1 (by omega)
  simp only [hrem, hmod]
  rw [if_neg (by omega)]

/-- C6 amended: the derived timestamp prefers the source real-time field
over the stream real-time field, converts a (nonnegative) microsecond value
with truncating division by 1,000,000 for the seconds and the remainder as
the sub-second part, and treats a present value that is valid text but not
parseable as an integer as absent — but a value that is not valid UTF-8 is
fatal in the lookup (see the counterexample), not absent. -/
theorem claim6_amended :
    (∀ (m : JournalMessage) (v : List Nat) (micros : Int),
      m.field KEY_SOURCE_RT = .found v → parseI64 v = some micros → 0 ≤ micros →
      m.date_time = .someD (Int.tdiv micros 1000000) ((micros % 1000000).toNat)) ∧
    (∀ (m : JournalMessage) (v : List Nat) (micros : Int),
      m.field KEY_SOURCE_RT = .absent → m.field KEY_STREAM_RT = .found v →
      parseI64 v = some micros → 0 ≤ micros →
      m.date_time = .someD (Int.tdiv micros 1000000) ((micros % 1000000).toNat)) ∧
    (∀ (m : JournalMessage) (v : List Nat),
      m.field KEY_SOURCE_RT = .found v → parseI64 v = none → m.date_time = .noneD) ∧
    (∀ (m : JournalMessage) (v : List Nat),
      m.field KEY_SOURCE_RT = .absent → m.field KEY_STREAM_RT = .found v →
      parseI64 v = none → m.date_time = .noneD) ∧
    (∀ m : JournalMessage,
      m.field KEY_SOURCE_RT = .absent → m.field KEY_STREAM_RT = .absent →
      m.date_time = .noneD) := by
  refine ⟨?_, ?_, ?_, ?_, ?_⟩
  · intro m v micros h1 h2 h3
    unfold JournalMessage.date_time
    rw [h1]
    exact dtOfBytes_nonneg v micros h2 h3
  · intro m v micros h0 h1 h2 h3
    unfold JournalMessage.date_time
    rw [h0, h1]
    exact dtOfBytes_nonneg v micros h2 h3
  · intro m v h1 h2
    unfold JournalMessage.date_time
    rw [h1]
    show dtOfBytes v = _
    unfold dtOfBytes
    rw [h2]
  · intro m v h0 h1 h2
    unfold JournalMessage.date_time
    rw [h0, h1]
    show dtOfBytes v = _
    unfold dtOfBytes
    rw [h2]
  · intro m h0 h1
    unfold JournalMessage.date_time
    rw [h0, h1]

/-- C6 amended witness: the preference and conversion at a concrete record
carrying both timestamp fields. -/
theorem claim6_amended_witness :
    JournalMessage.date_time ⟨[(KEY_SOURCE_RT, strBytes "1598233033204859"),
        (KEY_STREAM_RT, strBytes "1598233033204937")]⟩ =
      .someD (Int.tdiv 1598233033204859 1000000)
        (((1598233033204859 : Int) % 1000000).toNat) :=
  claim6_amended.1 _ (strBytes "1598233033204859") 1598233033204859
    (by decide) (by decide) (by decide)

/-- C7: with only time bounds configured, a record with derivable timestamp
`T` is rejected exactly when `T` is before the since bound or after the
until bound (both bounds inclusive: `S ≤ T ≤ U` is accepted), and a record
whose timestamp is underivable (`None`) is never rejected by the time
criteria. -/
theorem claim7_time_filter (S U : Ts) (lin : Option Nat) (m : JournalMessage) :
    (∀ se na, m.date_time = .someD se na →
      shouldFilter (some ⟨none, some S, some U, lin⟩) m =
        some (tsLt (se, na) S || tsLt U (se, na))) ∧
    (∀ se na, m.date_time = .someD se na → tsLt (se, na) S = false →
      tsLt U (se, na) = false →
      shouldFilter (some ⟨none, some S, some U, lin⟩) m = some false) ∧
    (m.date_time = .noneD →
      shouldFilter (some ⟨none, some S, some U, lin⟩) m = some false) := by
  refine ⟨?_, ?_, ?_⟩
  · intro se na h
    simp [shouldFilter, h]
  · intro se na h hs hu
    simp [shouldFilter, h, hs, hu]
  · intro h
    simp [shouldFilter, h]

/-- C7 witness: a record stamped at 1 second after the epoch is accepted for
bounds 0s..2s and the rejection formula evaluates as stated. -/
theorem claim7_time_filter_witness :
    shouldFilter (some ⟨none, some ((0 : Int), 0), some ((2 : Int), 0), none⟩)
        ⟨[(KEY_SOURCE_RT, strBytes "1000000")]⟩ =
      some (tsLt ((1 : Int), 0) ((0 : Int), 0) || tsLt ((2 : Int), 0) ((1 : Int), 0)) :=
  (claim7_time_filter ((0 : Int), 0) ((2 : Int), 0) none
      ⟨[(KEY_SOURCE_RT, strBytes "1000000")]⟩).1 1 0 (by decide)

/-- C8: two records back-to-back separated by one blank line decode to
exactly those two records, in stream order, fields in source order with a
duplicate field preserved; the blank line terminating the second record does
not create a spurious third record. -/
theorem claim8_two_records :
    (decodeAll 40 (initState
      [.chunk [97, 61, 49, 10, 98, 61, 50, 10, 98, 61, 50, 10, 10,
               99, 61, 51, 10, 10]] none)).1 =
    some [⟨[([97], [49]), ([98], [50]), ([98], [50])]⟩, ⟨[([99], [51])]⟩] := by decide

/-- C4 counterexample: a source that delivers one record, then an I/O error,
then another record produces exactly the same caller-visible outcome as a
source that simply ends after the first record — the error terminates the
sequence as a normal end (`None`), not distinguishably, and the second
record is silently lost. -/
theorem claim4_counterexample :
    (decodeAll 30 (initState [.chunk [97, 61, 49, 10, 10], .ioError,
        .chunk [98, 61, 50, 10, 10]] none)).1 = some [⟨[([97], [49])]⟩] ∧
    (decodeAll 30 (initState [.chunk [97, 61, 49, 10, 10]] none)).1 =
      some [⟨[([97], [49])]⟩] := by decide

/-- C4 amended: a read I/O error is logged and then surfaced as the normal
end-of-sequence outcome (`None`), indistinguishable from stream end; the
decoder consumes the error event and does not retry the read — the
remaining source events are left untouched in the returned state. -/
theorem claim4_amended :
    (∀ (f : Nat) (st : RState) (rest : List ReadEvent), st.remainder = [] →
      st.source = .ioError :: rest →
      (next f st).1 = .stop ⟨rest, [], 0, st.filter⟩) ∧
    (∀ (f : Nat) (st : RState) (acc : List KVP) (rest : List ReadEvent) (n : Nat),
      1 ≤ f → st.remainder.length < 10000000 →
      parse_end_of_msg (st.remainder.drop st.remainderRead) = .incomplete n →
      st.source = .ioError :: rest →
      (nextLoop f st acc).1 = .stop ⟨rest, st.remainder.drop st.remainderRead, 0, st.filter⟩) := by
  constructor
  · intro f st rest hrem hsrc
    obtain ⟨src, rem, rr, fil⟩ := st
    simp only at hrem hsrc
    subst hrem
    subst hsrc
    simp [next, readStep]
  · intro f st acc rest n hf hlen hparse hsrc
    obtain ⟨src, rem, rr, fil⟩ := st
    simp only at hlen hparse hsrc
    subst hsrc
    cases f with
    | zero => omega
    | succ f' =>
      simp only [nextLoop]
      rw [if_pos hlen, hparse]
      simp [readStep]

theorem PResult.bind_ok {α β : Type} (r : List Nat) (v : α) (f : List Nat → α → PResult β) :
    PResult.bind (.ok r v) f = f r v := rfl

theorem PResult.bind_error {α β : Type} (k : ErrKind) (f : List Nat → α → PResult β) :
    PResult.bind (.error k) f = .error k := rfl

theorem PResult.bind_incomplete {α β : Type} (n : Nat) (f : List Nat → α → PResult β) :
    PResult.bind (.incomplete n) f = .incomplete n := rfl

theorem pem_newline (s : List Nat) : parse_end_of_msg (NEWLINE :: s) = .ok s none := by
  unfold parse_end_of_msg
  rw [tagP_cons_self]
  rfl

theorem pem_of_tag_error (s : List Nat) (h : tagP [NEWLINE] s = .error .tag) :
    parse_end_of_msg s =
      (match parse_key_value s with
       | .ok r kv => .ok r (some kv)
       | .error k => .error k
       | .incomplete n => .incomplete n
       | .crash => .crash) := by
  unfold parse_end_of_msg
  rw [h]

theorem c5Stream_length : c5Stream.length = 10100010 := by
  have h1 : c5Stream = [65, 10, 0, 0, 0, 0, 1, 0, 0, 0] ++ List.replicate 10100000 48 := rfl
  rw [h1, List.length_append, List.length_replicate]
  rfl

theorem c5_take (k : Nat) (hk : k ≤ 10100000) :
    c5Stream.take (k + 10) = 65 :: 10 :: ([0, 0, 0, 0, 1, 0, 0, 0] ++ List.replicate k 48) := by
  show (65 :: 10 :: ([0, 0, 0, 0, 1, 0, 0, 0] ++ List.replicate 10100000 48)).take (k + 10) = _
  rw [show k + 10 = (k + 9) + 1 by omega, List.take_succ_cons,
    show k + 9 = (k + 8) + 1 by omega, List.take_succ_cons,
    List.take_append_eq_append_take, List.take_of_length_le (by simp),
    show k + 8 - ([0, 0, 0, 0, 1, 0, 0, 0] : List Nat).length = k by simp,
    List.take_replicate, show min k 10100000 = k by omega]

theorem pem_incomplete_of_kv (s : List Nat) (n : Nat)
    (h : tagP [NEWLINE] s = .error .tag) (h2 : parse_key_value s = .incomplete n) :
    parse_end_of_msg s = .incomplete n := by
  rw [pem_of_tag_error s h, h2]

theorem c5_parse (k : Nat) (hk : k < 4294967296) :
    parse_end_of_msg (65 :: 10 :: ([0, 0, 0, 0, 1, 0, 0, 0] ++ List.replicate k 48)) =
      .incomplete 4294967296 := by
  have h1 : tagP [NEWLINE] (65 :: 10 :: ([0, 0, 0, 0, 1, 0, 0, 0] ++ List.replicate k 48)) =
      .error .tag := tagP_cons_ne NEWLINE 65 _ (by decide)
  have hpk : parse_key (65 :: 10 :: ([0, 0, 0, 0, 1, 0, 0, 0] ++ List.replicate k 48)) =
      .ok (10 :: ([0, 0, 0, 0, 1, 0, 0, 0] ++ List.replicate k 48)) [65] := by
    have h := takeWhile1P_append (fun c => c != EQUALS && c != NEWLINE) [65] 10
      ([0, 0, 0, 0, 1, 0, 0, 0] ++ List.replicate k 48) (by simp) (by decide) (by decide)
    simpa [parse_key] using h
  have htag : tagP [NEWLINE] (10 :: ([0, 0, 0, 0, 1, 0, 0, 0] ++ List.replicate k 48)) =
      .ok ([0, 0, 0, 0, 1, 0, 0, 0] ++ List.replicate k 48) [NEWLINE] := tagP_cons_self NEWLINE _
  have hint : parse_value_binary_int ([0, 0, 0, 0, 1, 0, 0, 0] ++ List.replicate k 48) =
      .incomplete 4294967296 := by
    have hval : leVal [0, 0, 0, 0, 1, 0, 0, 0] = 4294967296 := by decide
    have h := pvbi_mid [0, 0, 0, 0, 1, 0, 0, 0] (List.replicate k 48) (by decide)
      (by rw [hval, List.length_replicate]; exact hk)
    rw [hval] at h
    exact h
  have hpvb : parse_value_binary (10 :: ([0, 0, 0, 0, 1, 0, 0, 0] ++ List.replicate k 48)) =
      .incomplete 4294967296 := by
    calc parse_value_binary (10 :: ([0, 0, 0, 0, 1, 0, 0, 0] ++ List.replicate k 48))
        = PResult.bind (tagP [NEWLINE] (10 :: ([0, 0, 0, 0, 1, 0, 0, 0] ++ List.replicate k 48)))
            (fun r _ => PResult.bind (parse_value_binary_int r)
              (fun r2 v => PResult.bind (tagP [NEWLINE] r2) (fun r3 _ => .ok r3 v))) := rfl
      _ = PResult.bind (.ok ([0, 0, 0, 0, 1, 0, 0, 0] ++ List.replicate k 48) [NEWLINE])
            (fun r _ => PResult.bind (parse_value_binary_int r)
              (fun r2 v => PResult.bind (tagP [NEWLINE] r2) (fun r3 _ => .ok r3 v))) := by
          rw [htag]
      _ = PResult.bind (parse_value_binary_int ([0, 0, 0, 0, 1, 0, 0, 0] ++ List.replicate k 48))
            (fun r2 v => PResult.bind (tagP [NEWLINE] r2) (fun r3 _ => .ok r3 v)) :=
          PResult.bind_ok _ _ _
      _ = PResult.bind (PResult.incomplete 4294967296)
            (fun r2 v => PResult.bind (tagP [NEWLINE] r2) (fun r3 _ => .ok r3 v)) := by
          rw [hint]
      _ = .incomplete 4294967296 := PResult.bind_incomplete _ _
  have hpv : parse_value (10 :: ([0, 0, 0, 0, 1, 0, 0, 0] ++ List.replicate k 48)) =
      parse_value_binary (10 :: ([0, 0, 0, 0, 1, 0, 0, 0] ++ List.replicate k 48)) := by
    simp [parse_value, NEWLINE, EQUALS]
  have hpkv : parse_key_value (65 :: 10 :: ([0, 0, 0, 0, 1, 0, 0, 0] ++ List.replicate k 48)) =
      .incomplete 4294967296 := by
    calc parse_key_value (65 :: 10 :: ([0, 0, 0, 0, 1, 0, 0, 0] ++ List.replicate k 48))
        = PResult.bind (parse_key (65 :: 10 :: ([0, 0, 0, 0, 1, 0, 0, 0] ++ List.replicate k 48)))
            (fun r k0 => PResult.bind (parse_value r) (fun r2 v => .ok r2 (k0, v))) := rfl
      _ = PResult.bind (.ok (10 :: ([0, 0, 0, 0, 1, 0, 0, 0] ++ List.replicate k 48)) [65])
            (fun r k0 => PResult.bind (parse_value r) (fun r2 v => .ok r2 (k0, v))) := by
          rw [hpk]
      _ = PResult.bind (parse_value (10 :: ([0, 0, 0, 0, 1, 0, 0, 0] ++ List.replicate k 48)))
            (fun r2 v => .ok r2 ([65], v)) := PResult.bind_ok _ _ _
      _ = PResult.bind (PResult.incomplete 4294967296) (fun r2 v => .ok r2 ([65], v)) := by
          rw [hpv, hpvb]
      _ = .incomplete 4294967296 := PResult.bind_incomplete _ _
  exact pem_incomplete_of_kv _ _ h1 hpkv

theorem readStep_chunk (src : List ReadEvent) (rem : List Nat) (rr : Nat)
    (fil : Option JFilter) (c : List Nat) :
    readStep ⟨.chunk c :: src, rem, rr, fil⟩ =
      (some (c.take 32768).length,
        ⟨if (c.drop 32768).isEmpty then src else .chunk (c.drop 32768) :: src,
          rem.drop rr ++ c.take 32768, 0, fil⟩) := rfl

theorem c5_read (k : Nat) (hk : k ≤ 305) :
    readStep (c5State k) = (some 32768, c5State (k + 1)) := by
  have hd : ((c5Stream.drop (32768 * k)).take 32768).length = 32768 := by
    rw [List.length_take, List.length_drop, c5Stream_length]
    omega
  have hlen2 : ((c5Stream.drop (32768 * k)).drop 32768).length ≠ 0 := by
    rw [List.length_drop, List.length_drop, c5Stream_length]
    omega
  have hde : ((c5Stream.drop (32768 * k)).drop 32768).isEmpty = false := by
    cases hc : (c5Stream.drop (32768 * k)).drop 32768 with
    | nil =>
      exfalso
      apply hlen2
      rw [hc]
      rfl
    | cons a l => rfl
  show readStep ⟨[.chunk (c5Stream.drop (32768 * k))], c5Stream.take (32768 * k), 0, none⟩ = _
  rw [readStep_chunk, hd, hde, if_neg (by simp), List.drop_zero, ← List.take_add,
    List.drop_drop, show 32768 * k + 32768 = 32768 * (k + 1) by ring]
  rfl

theorem nextLoop_runaway (f : Nat) (st : RState) (acc : List KVP)
    (h : ¬ st.remainder.length < 10000000) :
    nextLoop (f + 1) st acc = (.panicRunaway st, st.remainder.length) := by
  show (if st.remainder.length < 10000000 then _ else _) = _
  rw [if_neg h]

theorem nextLoop_read (f : Nat) (st : RState) (acc : List KVP) (n l : Nat) (st₁ : RState)
    (hg : st.remainder.length < 10000000)
    (hp : parse_end_of_msg (st.remainder.drop st.remainderRead) = .incomplete n)
    (hr : readStep st = (some l, st₁)) (hl : l ≠ 0) :
    nextLoop (f + 1) st acc =
      ((nextLoop f st₁ acc).1, max st.remainder.length (nextLoop f st₁ acc).2) := by
  simp only [nextLoop, hp, hr]
  rw [if_pos hg, if_neg hl]

theorem nextLoop_read_fst (f : Nat) (st : RState) (acc : List KVP) (n l : Nat) (st₁ : RState)
    (hg : st.remainder.length < 10000000)
    (hp : parse_end_of_msg (st.remainder.drop st.remainderRead) = .incomplete n)
    (hr : readStep st = (some l, st₁)) (hl : l ≠ 0) :
    (nextLoop (f + 1) st acc).1 = (nextLoop f st₁ acc).1 := by
  rw [nextLoop_read f st acc n l st₁ hg hp hr hl]

theorem nextLoop_read_eof (f : Nat) (st : RState) (acc : List KVP) (n : Nat) (st₁ : RState)
    (hg : st.remainder.length < 10000000)
    (hp : parse_end_of_msg (st.remainder.drop st.remainderRead) = .incomplete n)
    (hr : readStep st = (some 0, st₁)) :
    nextLoop (f + 1) st acc = (.stop st₁, st.remainder.length) := by
  simp only [nextLoop, hp, hr]
  rw [if_pos hg]
  simp

theorem nextLoop_read_err (f : Nat) (st : RState) (acc : List KVP) (n : Nat) (st₁ : RState)
    (hg : st.remainder.length < 10000000)
    (hp : parse_end_of_msg (st.remainder.drop st.remainderRead) = .incomplete n)
    (hr : readStep st = (none, st₁)) :
    nextLoop (f + 1) st acc = (.stop st₁, st.remainder.length) := by
  simp only [nextLoop, hp, hr]
  rw [if_pos hg]

theorem nextLoop_field (f : Nat) (st : RState) (acc : List KVP) (rem : List Nat) (kv : KVP)
    (hg : st.remainder.length < 10000000)
    (hp : parse_end_of_msg (st.remainder.drop st.remainderRead) = .ok rem (some kv)) :
    nextLoop (f + 1) st acc =
      ((nextLoop f ⟨st.source, st.remainder, st.remainder.length - rem.length, st.filter⟩
          (acc ++ [kv])).1,
        max st.remainder.length
          (nextLoop f ⟨st.source, st.remainder, st.remainder.length - rem.length, st.filter⟩
            (acc ++ [kv])).2) := by
  simp only [nextLoop, hp]
  rw [if_pos hg]

theorem nextLoop_yield (f : Nat) (st : RState) (acc : List KVP) (rem : List Nat)
    (hg : st.remainder.length < 10000000)
    (hp : parse_end_of_msg (st.remainder.drop st.remainderRead) = .ok rem none)
    (hf : shouldFilter st.filter ⟨acc⟩ = some false) :
    nextLoop (f + 1) st acc =
      (.yield ⟨acc⟩ ⟨st.source, st.remainder, st.remainder.length - rem.length, st.filter⟩,
        st.remainder.length) := by
  simp only [nextLoop, hp, hf]
  rw [if_pos hg]

theorem nextLoop_reject (f : Nat) (st : RState) (acc : List KVP) (rem : List Nat)
    (hg : st.remainder.length < 10000000)
    (hp : parse_end_of_msg (st.remainder.drop st.remainderRead) = .ok rem none)
    (hf : shouldFilter st.filter ⟨acc⟩ = some true) :
    nextLoop (f + 1) st acc =
      ((nextLoop f ⟨st.source, st.remainder, st.remainder.length - rem.length, st.filter⟩ []).1,
        max st.remainder.length
          (nextLoop f ⟨st.source, st.remainder, st.remainder.length - rem.length, st.filter⟩
            []).2) := by
  simp only [nextLoop, hp, hf]
  rw [if_pos hg]

theorem nextLoop_parse_err (f : Nat) (st : RState) (acc : List KVP) (k : ErrKind)
    (hg : st.remainder.length < 10000000)
    (hp : parse_end_of_msg (st.remainder.drop st.remainderRead) = .error k) :
    nextLoop (f + 1) st acc = (.panicParse, st.remainder.length) := by
  simp only [nextLoop, hp]
  rw [if_pos hg]

theorem next_empty_read (f : Nat) (st : RState) (l : Nat) (st₁ : RState)
    (he : st.remainder.isEmpty = true) (hr : readStep st = (some l, st₁)) (hl : l ≠ 0) :
    next f st = nextLoop f st₁ [] := by
  unfold next
  rw [if_pos he]
  simp only [hr]
  rw [if_neg hl]

theorem next_empty_eof (f : Nat) (st : RState) (st₁ : RState)
    (he : st.remainder.isEmpty = true) (hr : readStep st = (some 0, st₁)) :
    next f st = (.stop st₁, st₁.remainder.length) := by
  unfold next
  rw [if_pos he]
  simp only [hr]
  simp

theorem next_empty_err (f : Nat) (st : RState) (st₁ : RState)
    (he : st.remainder.isEmpty = true) (hr : readStep st = (none, st₁)) :
    next f st = (.stop st₁, st₁.remainder.length) := by
  unfold next
  rw [if_pos he]
  simp only [hr]

theorem next_nonempty (f : Nat) (st : RState) (he : st.remainder.isEmpty = false) :
    next f st = nextLoop f st [] := by
  unfold next
  rw [if_neg (by rw [he]; simp)]

theorem c5_loop (j : Nat) : ∀ k, k + j = 306 → 1 ≤ k →
    (nextLoop (j + 1) (c5State k) []).1 = .panicRunaway (c5State 306) := by
  induction j with
  | zero =>
    intro k hk _
    have hk306 : k = 306 := by omega
    subst hk306
    have hlen : (c5State 306).remainder.length = 10027008 := by
      show (c5Stream.take (32768 * 306)).length = 10027008
      rw [List.length_take, c5Stream_length]
      omega
    rw [nextLoop_runaway 0 (c5State 306) [] (by rw [hlen]; omega)]
  | succ j ih =>
    intro k hk hk1
    have hk305 : k ≤ 305 := by omega
    have hlen : (c5State k).remainder.length = 32768 * k := by
      show (c5Stream.take (32768 * k)).length = 32768 * k
      rw [List.length_take, c5Stream_length]
      omega
    have hicp : parse_end_of_msg ((c5State k).remainder.drop (c5State k).remainderRead) =
        .incomplete 4294967296 := by
      show parse_end_of_msg ((c5Stream.take (32768 * k)).drop 0) = _
      rw [List.drop_zero,
        show 32768 * k = (32768 * k - 10) + 10 by omega,
        c5_take (32768 * k - 10) (by omega)]
      exact c5_parse (32768 * k - 10) (by omega)
    rw [nextLoop_read_fst (j + 1) (c5State k) [] 4294967296 32768 (c5State (k + 1))
      (by rw [hlen]; omega) hicp (c5_read k hk305) (by omega)]
    exact ih (k + 1) (by omega) (by omega)

theorem c5_run :
    (next 306 (initState [.chunk c5Stream] none)).1 = .panicRunaway (c5State 306) := by
  have hinit : initState [.chunk c5Stream] none = c5State 0 := rfl
  rw [hinit, next_empty_read 306 (c5State 0) 32768 (c5State 1) rfl
    (c5_read 0 (by omega)) (by omega)]
  exact c5_loop 305 1 rfl (by omega)

theorem nextLoop_parse_crash (f : Nat) (st : RState) (acc : List KVP)
    (hg : st.remainder.length < 10000000)
    (hp : parse_end_of_msg (st.remainder.drop st.remainderRead) = .crash) :
    nextLoop (f + 1) st acc = (.crash, st.remainder.length) := by
  simp only [nextLoop, hp]
  rw [if_pos hg]

theorem nextLoop_filter_crash (f : Nat) (st : RState) (acc : List KVP) (rem : List Nat)
    (hg : st.remainder.length < 10000000)
    (hp : parse_end_of_msg (st.remainder.drop st.remainderRead) = .ok rem none)
    (hf : shouldFilter st.filter ⟨acc⟩ = none) :
    nextLoop (f + 1) st acc = (.crash, st.remainder.length) := by
  simp only [nextLoop, hp, hf]
  rw [if_pos hg]

theorem readStep_remainder_le (st : RState) :
    (readStep st).2.remainder.length ≤ st.remainder.length + 32768 := by
  obtain ⟨src, rem, rr, fil⟩ := st
  cases src with
  | nil =>
    simp only [readStep, List.length_drop]
    omega
  | cons e rest =>
    cases e with
    | chunk c =>
      simp only [readStep, List.length_append, List.length_drop, List.length_take]
      omega
    | ioError =>
      simp only [readStep, List.length_drop]
      omega

theorem nextLoop_snd_le : ∀ (f : Nat) (st : RState) (acc : List KVP),
    (nextLoop f st acc).2 ≤ max st.remainder.length 10032767 := by
  intro f
  induction f with
  | zero =>
    intro st acc
    exact le_max_left _ _
  | succ f ih =>
    intro st acc
    by_cases hg : st.remainder.length < 10000000
    · cases hp : parse_end_of_msg (st.remainder.drop st.remainderRead) with
      | ok rem kvp =>
        cases kvp with
        | none =>
          cases hf : shouldFilter st.filter ⟨acc⟩ with
          | none =>
            rw [nextLoop_filter_crash f st acc rem hg hp hf]
            exact le_max_left _ _
          | some b =>
            cases b with
            | false =>
              rw [nextLoop_yield f st acc rem hg hp hf]
              exact le_max_left _ _
            | true =>
              rw [nextLoop_reject f st acc rem hg hp hf]
              have h := ih ⟨st.source, st.remainder, st.remainder.length - rem.length, st.filter⟩ []
              simp only at h
              omega
        | some kv =>
          rw [nextLoop_field f st acc rem kv hg hp]
          have h := ih ⟨st.source, st.remainder, st.remainder.length - rem.length, st.filter⟩
            (acc ++ [kv])
          simp only at h
          omega
      | error k =>
        rw [nextLoop_parse_err f st acc k hg hp]
        exact le_max_left _ _
      | incomplete n =>
        rcases hr : readStep st with ⟨ol, st₁⟩
        cases ol with
        | none =>
          rw [nextLoop_read_err f st acc n st₁ hg hp hr]
          exact le_max_left _ _
        | some l =>
          by_cases hl : l = 0
          · subst hl
            rw [nextLoop_read_eof f st acc n st₁ hg hp hr]
            exact le_max_left _ _
          · rw [nextLoop_read f st acc n l st₁ hg hp hr hl]
            have h1 := ih st₁ acc
            have h2 : st₁.remainder.length ≤ st.remainder.length + 32768 := by
              have h := readStep_remainder_le st
              rw [hr] at h
              exact h
            simp only []
            omega
      | crash =>
        rw [nextLoop_parse_crash f st acc hg hp]
        exact le_max_left _ _
    · rw [nextLoop_runaway f st acc hg]
      exact le_max_left _ _

theorem nextLoop_yield_len : ∀ (f : Nat) (st : RState) (acc : List KVP)
    (m : JournalMessage) (st' : RState),
    (nextLoop f st acc).1 = .yield m st' → st'.remainder.length ≤ (nextLoop f st acc).2 := by
  intro f
  induction f with
  | zero =>
    intro st acc m st' h
    simp [nextLoop] at h
  | succ f ih =>
    intro st acc m st' h
    by_cases hg : st.remainder.length < 10000000
    · cases hp : parse_end_of_msg (st.remainder.drop st.remainderRead) with
      | ok rem kvp =>
        cases kvp with
        | none =>
          cases hf : shouldFilter st.filter ⟨acc⟩ with
          | none =>
            rw [nextLoop_filter_crash f st acc rem hg hp hf] at h
            simp at h
          | some b =>
            cases b with
            | false =>
              rw [nextLoop_yield f st acc rem hg hp hf] at h ⊢
              simp only [NextOutcome.yield.injEq] at h
              rw [← h.2]
            | true =>
              rw [nextLoop_reject f st acc rem hg hp hf] at h ⊢
              have := ih _ [] m st' h
              omega
        | some kv =>
          rw [nextLoop_field f st acc rem kv hg hp] at h ⊢
          have := ih _ (acc ++ [kv]) m st' h
          omega
      | error k =>
        rw [nextLoop_parse_err f st acc k hg hp] at h
        simp at h
      | incomplete n =>
        rcases hr : readStep st with ⟨ol, st₁⟩
        cases ol with
        | none =>
          rw [nextLoop_read_err f st acc n st₁ hg hp hr] at h
          simp at h
        | some l =>
          by_cases hl : l = 0
          · subst hl
            rw [nextLoop_read_eof f st acc n st₁ hg hp hr] at h
            simp at h
          · rw [nextLoop_read f st acc n l st₁ hg hp hr hl] at h ⊢
            have := ih st₁ acc m st' h
            omega
      | crash =>
        rw [nextLoop_parse_crash f st acc hg hp] at h
        simp at h
    · rw [nextLoop_runaway f st acc hg] at h
      simp at h

theorem next_snd_le (f : Nat) (st : RState) :
    (next f st).2 ≤ max st.remainder.length 10032767 := by
  unfold next
  by_cases he : st.remainder.isEmpty
  · rw [if_pos he]
    have hlen0 : st.remainder.length = 0 := by
      cases hrem : st.remainder with
      | nil => rfl
      | cons a l => rw [hrem] at he; simp at he
    rcases hr : readStep st with ⟨ol, st₁⟩
    have h2 : st₁.remainder.length ≤ st.remainder.length + 32768 := by
      have h := readStep_remainder_le st
      rw [hr] at h
      exact h
    cases ol with
    | none =>
      show st₁.remainder.length ≤ _
      omega
    | some l =>
      show (if l = 0 then ((NextOutcome.stop st₁ : NextOutcome), st₁.remainder.length)
        else nextLoop f st₁ []).2 ≤ _
      by_cases hl : l = 0
      · rw [if_pos hl]
        show st₁.remainder.length ≤ _
        omega
      · rw [if_neg hl]
        have := nextLoop_snd_le f st₁ []
        omega
  · rw [if_neg he]
    exact nextLoop_snd_le f st []

theorem next_yield_len (f : Nat) (st : RState) (m : JournalMessage) (st' : RState)
    (h : (next f st).1 = .yield m st') : st'.remainder.length ≤ (next f st).2 := by
  unfold next at h ⊢
  by_cases he : st.remainder.isEmpty
  · rw [if_pos he] at h ⊢
    rcases hr : readStep st with ⟨ol, st₁⟩
    rw [hr] at h
    cases ol with
    | none => simp at h
    | some l =>
      rw [show (match ((some l : Option Nat), st₁) with
          | (some l, st₁) => if l = 0 then ((NextOutcome.stop st₁ : NextOutcome),
              st₁.remainder.length) else nextLoop f st₁ []
          | (none, st₁) => ((NextOutcome.stop st₁ : NextOutcome), st₁.remainder.length)) =
          if l = 0 then ((NextOutcome.stop st₁ : NextOutcome), st₁.remainder.length)
            else nextLoop f st₁ [] from rfl] at h ⊢
      by_cases hl : l = 0
      · rw [if_pos hl] at h
        simp at h
      · rw [if_neg hl] at h ⊢
        exact nextLoop_yield_len f st₁ [] m st' h
  · rw [if_neg he] at h ⊢
    exact nextLoop_yield_len f st [] m st' h

theorem decodeAll_snd_le : ∀ (f : Nat) (st : RState),
    (decodeAll f st).2 ≤ max st.remainder.length 10032767 := by
  intro f
  induction f with
  | zero =>
    intro st
    exact le_max_left _ _
  | succ f ih =>
    intro st
    rcases hn : next (f + 1) st with ⟨o, g⟩
    have hg : g ≤ max st.remainder.length 10032767 := by
      have h := next_snd_le (f + 1) st
      rw [hn] at h
      exact h
    show (decodeAll (f + 1) st).2 ≤ _
    simp only [decodeAll, hn]
    cases o with
    | yield m st' =>
      have hlen : st'.remainder.length ≤ g := by
        have h := next_yield_len (f + 1) st m st' (by rw [hn])
        rw [hn] at h
        exact h
      have h2 := ih st'
      simp only []
      omega
    | stop st₁ => exact hg
    | panicRunaway st₁ => exact hg
    | panicParse => exact hg
    | crash => exact hg
    | outOfFuel => exact hg

/-- C5 counterexample: decoding a single field whose 8-byte prefix declares
2^32 bytes drives the decoder, refill by refill, to a parse attempt at which
the fully-unconsumed buffer holds 10,027,008 bytes — strictly more than the
10,000,000-byte ceiling the claim says is never exceeded — and only then
aborts with the runaway-growth panic. -/
theorem claim5_counterexample :
    (next 306 (initState [.chunk c5Stream] none)).1 = .panicRunaway (c5State 306) ∧
    (c5State 306).remainderRead = 0 ∧
    (c5State 306).remainder.length = 10027008 ∧
    10000000 < 10027008 := by
  refine ⟨c5_run, rfl, ?_, by omega⟩
  show (c5Stream.take (32768 * 306)).length = 10027008
  rw [List.length_take, c5Stream_length]
  omega

/-- C5 amended: the buffered bytes are bounded by the ceiling plus one
32 KiB refill (10,032,767 bytes) over any run of the loop and of the whole
decode; whenever a loop iteration finds the buffer at or above the
10,000,000-byte ceiling it aborts with the runaway-growth panic (a distinct
outcome from the structural-error panic); and the single huge declared
binary length concretely produces that panic rather than any attempt to
materialize the declared payload. -/
theorem claim5_amended :
    (∀ (f : Nat) (st : RState) (acc : List KVP),
      (nextLoop f st acc).2 ≤ max st.remainder.length 10032767) ∧
    (∀ (f : Nat) (st : RState), (decodeAll f st).2 ≤ max st.remainder.length 10032767) ∧
    (∀ (f : Nat) (st : RState) (acc : List KVP), ¬ st.remainder.length < 10000000 →
      (nextLoop (f + 1) st acc).1 = .panicRunaway st) ∧
    (∀ st : RState, ∀ k, NextOutcome.panicRunaway st ≠ NextOutcome.panicParse ∧
      (.panicRunaway st : NextOutcome) ≠ .crash ∧ (.panicRunaway st : NextOutcome) ≠ .stop k) ∧
    (next 306 (initState [.chunk c5Stream] none)).1 = .panicRunaway (c5State 306) := by
  refine ⟨nextLoop_snd_le, decodeAll_snd_le, ?_, ?_, c5_run⟩
  · intro f st acc h
    rw [nextLoop_runaway f st acc h]
  · intro st k
    refine ⟨by simp, by simp, by simp⟩

/-- C5 amended witness: a buffer already at the ceiling panics immediately,
and the ghost bound evaluates on a concrete small run. -/
theorem claim5_amended_witness :
    (nextLoop 1 ⟨[], List.replicate 10000000 0, 0, none⟩ []).1 =
      .panicRunaway ⟨[], List.replicate 10000000 0, 0, none⟩ ∧
    (nextLoop 5 (initState [.chunk [10]] none) []).2 ≤
      max (initState [.chunk [10]] none).remainder.length 10032767 := by
  constructor
  · have h := claim5_amended.2.2.1 0 ⟨[], List.replicate 10000000 0, 0, none⟩ []
      (by show ¬ (List.replicate 10000000 (0 : Nat)).length < 10000000
          rw [List.length_replicate]
          omega)
    rw [h]
  · exact claim5_amended.1 5 (initState [.chunk [10]] none) []

/-- C4 amended witness: a source whose first event is an I/O error ends the
sequence with the error consumed and the following chunk untouched; the loop
variant at a concrete mid-parse state does the same. -/
theorem claim4_amended_witness :
    (next 5 ⟨[.ioError, .chunk [97]], [], 0, none⟩).1 =
      .stop ⟨[.chunk [97]], [], 0, none⟩ ∧
    (nextLoop 5 ⟨[.ioError, .chunk [97]], [117], 0, none⟩ []).1 =
      .stop ⟨[.chunk [97]], [117], 0, none⟩ :=
  ⟨claim4_amended.1 5 ⟨[.ioError, .chunk [97]], [], 0, none⟩ [.chunk [97]] rfl rfl,
   claim4_amended.2 5 ⟨[.ioError, .chunk [97]], [117], 0, none⟩ [] [.chunk [97]] 1
     (by omega) (by decide) (by decide) rfl⟩

theorem PResult.bind_eq_ok {α β : Type} (x : PResult α) (f : List Nat → α → PResult β)
    (r : List Nat) (v : β) (h : x.bind f = .ok r v) :
    ∃ r₁ v₁, x = .ok r₁ v₁ ∧ f r₁ v₁ = .ok r v := by
  cases x with
  | ok r₁ v₁ => exact ⟨r₁, v₁, rfl, h⟩
  | error k => exact nomatch h
  | incomplete n => exact nomatch h
  | crash => exact nomatch h

theorem PResult.bind_eq_error {α β : Type} (x : PResult α) (f : List Nat → α → PResult β)
    (k : ErrKind) (h : x.bind f = .error k) :
    x = .error k ∨ ∃ r₁ v₁, x = .ok r₁ v₁ ∧ f r₁ v₁ = .error k := by
  cases x with
  | ok r₁ v₁ => exact Or.inr ⟨r₁, v₁, rfl, h⟩
  | error k₁ => exact Or.inl (by cases h; rfl)
  | incomplete n => exact nomatch h
  | crash => exact nomatch h

theorem PResult.bind_eq_crash {α β : Type} (x : PResult α) (f : List Nat → α → PResult β)
    (h : x.bind f = .crash) :
    x = .crash ∨ ∃ r₁ v₁, x = .ok r₁ v₁ ∧ f r₁ v₁ = .crash := by
  cases x with
  | ok r₁ v₁ => exact Or.inr ⟨r₁, v₁, rfl, h⟩
  | error k₁ => exact nomatch h
  | incomplete n => exact nomatch h
  | crash => exact Or.inl rfl

theorem tagP_single_ok_inv (c : Nat) (s r v : List Nat) (h : tagP [c] s = .ok r v) :
    s = c :: r ∧ v = [c] := by
  cases s with
  | nil => rw [tagP_nil [c] (by simp)] at h; exact nomatch h
  | cons b t =>
    by_cases hb : b = c
    · subst hb
      rw [tagP_cons_self] at h
      cases h
      exact ⟨rfl, rfl⟩
    · rw [tagP_cons_ne c b t hb] at h
      exact nomatch h

theorem tagP_single_err_inv (c : Nat) (s : List Nat) (k : ErrKind)
    (h : tagP [c] s = .error k) :
    ∃ b t, s = b :: t ∧ b ≠ c ∧ k = .tag := by
  cases s with
  | nil => rw [tagP_nil [c] (by simp)] at h; exact nomatch h
  | cons b t =>
    by_cases hb : b = c
    · subst hb; rw [tagP_cons_self] at h; exact nomatch h
    · rw [tagP_cons_ne c b t hb] at h
      cases h
      exact ⟨b, t, rfl, hb, rfl⟩

theorem tagP_single_inc_inv (c : Nat) (s : List Nat) (n : Nat)
    (h : tagP [c] s = .incomplete n) : s = [] := by
  cases s with
  | nil => rfl
  | cons b t =>
    by_cases hb : b = c
    · subst hb; rw [tagP_cons_self] at h; exact nomatch h
    · rw [tagP_cons_ne c b t hb] at h; exact nomatch h

theorem tagP_ne_crash (tg s : List Nat) : tagP tg s ≠ .crash := by
  unfold tagP
  by_cases h1 : tg.isPrefixOf s
  · rw [if_pos h1]; intro h; exact nomatch h
  · rw [if_neg h1]
    by_cases h2 : s.isPrefixOf tg
    · rw [if_pos h2]; intro h; exact nomatch h
    · rw [if_neg h2]; intro h; exact nomatch h

theorem tagP_single_ok_ext (c : Nat) (s r v t : List Nat) (h : tagP [c] s = .ok r v) :
    tagP [c] (s ++ t) = .ok (r ++ t) v := by
  obtain ⟨hs, hv⟩ := tagP_single_ok_inv c s r v h
  subst hs; subst hv
  rw [List.cons_append]
  exact tagP_cons_self c (r ++ t)

theorem tagP_single_err_ext (c : Nat) (s t : List Nat) (k : ErrKind)
    (h : tagP [c] s = .error k) : tagP [c] (s ++ t) = .error k := by
  obtain ⟨b, bs, hs, hb, hk⟩ := tagP_single_err_inv c s k h
  subst hs; subst hk
  rw [List.cons_append]
  exact tagP_cons_ne c b (bs ++ t) hb

theorem takeWhile1P_ne_crash (p : Nat → Bool) (s : List Nat) : takeWhile1P p s ≠ .crash := by
  unfold takeWhile1P
  cases hs : splitAtPos (fun c => !(p c)) s with
  | none => intro h; exact nomatch h
  | some pr =>
    obtain ⟨m, r⟩ := pr
    cases m with
    | nil => intro h; exact nomatch h
    | cons a as => intro h; exact nomatch h

theorem takeWhile1P_err_inv (p : Nat → Bool) (s : List Nat) (k : ErrKind)
    (h : takeWhile1P p s = .error k) :
    ∃ b bs, s = b :: bs ∧ p b = false ∧ k = .takeWhile1 := by
  unfold takeWhile1P at h
  cases hs : splitAtPos (fun c => !(p c)) s with
  | none => rw [hs] at h; exact nomatch h
  | some pr =>
    obtain ⟨m, r⟩ := pr
    rw [hs] at h
    obtain ⟨hse, _, c, rest, hr, hc⟩ := splitAtPos_eq_some _ s m r hs
    cases m with
    | nil =>
      subst hr
      refine ⟨c, rest, by simpa using hse, by simpa using hc, ?_⟩
      cases h
      rfl
    | cons a as => exact nomatch h

theorem takeWhile1P_ok_ext (p : Nat → Bool) (s r v t : List Nat)
    (h : takeWhile1P p s = .ok r v) :
    takeWhile1P p (s ++ t) = .ok (r ++ t) v := by
  obtain ⟨hv, hse, hall, c, rest, hr, hc⟩ := takeWhile1P_ok_inv p s r v h
  subst hr
  rw [hse, List.append_assoc]
  exact takeWhile1P_append p v c (rest ++ t) hv hall hc

theorem takeWhile1P_err_ext (p : Nat → Bool) (s t : List Nat) (k : ErrKind)
    (h : takeWhile1P p s = .error k) :
    takeWhile1P p (s ++ t) = .error k := by
  obtain ⟨b, bs, hs, hb, hk⟩ := takeWhile1P_err_inv p s k h
  subst hs; subst hk
  have hsp : splitAtPos (fun c => !(p c)) (b :: (bs ++ t)) = some ([], b :: (bs ++ t)) := by
    simp [splitAtPos, hb]
  unfold takeWhile1P
  rw [List.cons_append, hsp]

theorem le_u64_ok_inv (s r : List Nat) (v : Nat) (h : le_u64 s = .ok r v) :
    s = s.take 8 ++ r ∧ (s.take 8).length = 8 ∧ v = leVal (s.take 8) := by
  unfold le_u64 at h
  by_cases h8 : s.length < 8
  · rw [if_pos h8] at h; exact nomatch h
  · rw [if_neg h8] at h
    cases h
    refine ⟨(List.take_append_drop 8 s).symm, ?_, rfl⟩
    rw [List.length_take]
    omega

theorem le_u64_ne_error (s : List Nat) (k : ErrKind) : le_u64 s ≠ .error k := by
  intro h
  unfold le_u64 at h
  by_cases h8 : s.length < 8
  · rw [if_pos h8] at h; exact nomatch h
  · rw [if_neg h8] at h; exact nomatch h

theorem le_u64_ne_crash (s : List Nat) : le_u64 s ≠ .crash := by
  intro h
  unfold le_u64 at h
  by_cases h8 : s.length < 8
  · rw [if_pos h8] at h; exact nomatch h
  · rw [if_neg h8] at h; exact nomatch h

theorem le_u64_ok_ext (s r t : List Nat) (v : Nat) (h : le_u64 s = .ok r v) :
    le_u64 (s ++ t) = .ok (r ++ t) v := by
  obtain ⟨hs, h8, hv⟩ := le_u64_ok_inv s r v h
  have he : s ++ t = s.take 8 ++ (r ++ t) := by
    conv_lhs => rw [hs]
    rw [List.append_assoc]
  rw [he, le_u64_append (s.take 8) (r ++ t) h8, hv]

theorem takeP_ok_inv (n : Nat) (s r v : List Nat) (h : takeP n s = .ok r v) :
    s = v ++ r ∧ v.length = n := by
  unfold takeP at h
  by_cases hn : s.length < n
  · rw [if_pos hn] at h; exact nomatch h
  · rw [if_neg hn] at h
    cases h
    refine ⟨(List.take_append_drop n s).symm, ?_⟩
    rw [List.length_take]
    omega

theorem takeP_ne_error (n : Nat) (s : List Nat) (k : ErrKind) : takeP n s ≠ .error k := by
  intro h
  unfold takeP at h
  by_cases hn : s.length < n
  · rw [if_pos hn] at h; exact nomatch h
  · rw [if_neg hn] at h; exact nomatch h

theorem takeP_ne_crash (n : Nat) (s : List Nat) : takeP n s ≠ .crash := by
  intro h
  unfold takeP at h
  by_cases hn : s.length < n
  · rw [if_pos hn] at h; exact nomatch h
  · rw [if_neg hn] at h; exact nomatch h

theorem takeP_ok_ext (n : Nat) (s r v t : List Nat) (h : takeP n s = .ok r v) :
    takeP n (s ++ t) = .ok (r ++ t) v := by
  obtain ⟨hs, hn⟩ := takeP_ok_inv n s r v h
  rw [hs, List.append_assoc]
  exact takeP_append v (r ++ t) n hn

theorem optP_ok_inv {α : Type} (p : List Nat → PResult α) (s r : List Nat) (w : Option α)
    (h : optP p s = .ok r w) :
    (∃ v, p s = .ok r v ∧ w = some v) ∨ (∃ k, p s = .error k ∧ r = s ∧ w = none) := by
  unfold optP at h
  cases hp : p s with
  | ok r₁ v₁ => rw [hp] at h; cases h; exact Or.inl ⟨v₁, rfl, rfl⟩
  | error k => rw [hp] at h; cases h; exact Or.inr ⟨k, rfl, rfl, rfl⟩
  | incomplete n => rw [hp] at h; exact nomatch h
  | crash => rw [hp] at h; exact nomatch h

theorem optP_ne_error {α : Type} (p : List Nat → PResult α) (s : List Nat) (k : ErrKind) :
    optP p s ≠ .error k := by
  intro h
  unfold optP at h
  cases hp : p s with
  | ok r₁ v₁ => rw [hp] at h; exact nomatch h
  | error k₁ => rw [hp] at h; exact nomatch h
  | incomplete n => rw [hp] at h; exact nomatch h
  | crash => rw [hp] at h; exact nomatch h

theorem optP_tw_ne_crash (q : Nat → Bool) (s : List Nat) :
    optP (takeWhile1P q) s ≠ .crash := by
  intro h
  unfold optP at h
  cases hp : takeWhile1P q s with
  | ok r₁ v₁ => rw [hp] at h; exact nomatch h
  | error k₁ => rw [hp] at h; exact nomatch h
  | incomplete n => rw [hp] at h; exact nomatch h
  | crash => exact takeWhile1P_ne_crash q s hp

theorem optP_tw_ok_ext (q : Nat → Bool) (s r t : List Nat) (w : Option (List Nat))
    (h : optP (takeWhile1P q) s = .ok r w) :
    optP (takeWhile1P q) (s ++ t) = .ok (r ++ t) w := by
  rcases optP_ok_inv _ s r w h with ⟨v, hp, hw⟩ | ⟨k, hp, hr, hw⟩
  · subst hw
    unfold optP
    rw [takeWhile1P_ok_ext q s r v t hp]
  · subst hw; subst hr
    unfold optP
    rw [takeWhile1P_err_ext q _ t k hp]

theorem pvbi_ok_inv (s r v : List Nat) (h : parse_value_binary_int s = .ok r v) :
    ∃ c, s = c ++ r ∧ 8 ≤ c.length := by
  unfold parse_value_binary_int at h
  obtain ⟨r₁, u, h1, h2⟩ := PResult.bind_eq_ok _ _ _ _ h
  obtain ⟨hs, h8, hu⟩ := le_u64_ok_inv s r₁ u h1
  obtain ⟨hr₁, hv⟩ := takeP_ok_inv u r₁ r v h2
  refine ⟨s.take 8 ++ v, ?_, by rw [List.length_append, h8]; omega⟩
  rw [List.append_assoc, ← hr₁]
  exact hs

theorem pvbi_ne_error (s : List Nat) (k : ErrKind) : parse_value_binary_int s ≠ .error k := by
  intro h
  unfold parse_value_binary_int at h
  rcases PResult.bind_eq_error _ _ _ h with h1 | ⟨r₁, u, h1, h2⟩
  · exact le_u64_ne_error s k h1
  · exact takeP_ne_error u r₁ k h2

theorem pvbi_ne_crash (s : List Nat) : parse_value_binary_int s ≠ .crash := by
  intro h
  unfold parse_value_binary_int at h
  rcases PResult.bind_eq_crash _ _ h with h1 | ⟨r₁, u, h1, h2⟩
  · exact le_u64_ne_crash s h1
  · exact takeP_ne_crash u r₁ h2

theorem pvbi_ok_ext (s r v t : List Nat) (h : parse_value_binary_int s = .ok r v) :
    parse_value_binary_int (s ++ t) = .ok (r ++ t) v := by
  unfold parse_value_binary_int at h ⊢
  obtain ⟨r₁, u, h1, h2⟩ := PResult.bind_eq_ok _ _ _ _ h
  rw [le_u64_ok_ext s r₁ t u h1]
  simp only [PResult.bind_ok]
  exact takeP_ok_ext u r₁ r v t h2

theorem pvb_ok_inv (s r v : List Nat) (h : parse_value_binary s = .ok r v) :
    ∃ c, c ≠ [] ∧ s = c ++ r := by
  unfold parse_value_binary at h
  obtain ⟨r₁, w₁, h1, h2⟩ := PResult.bind_eq_ok _ _ _ _ h
  obtain ⟨r₂, v₂, h3, h4⟩ := PResult.bind_eq_ok _ _ _ _ h2
  obtain ⟨r₃, w₃, h5, h6⟩ := PResult.bind_eq_ok _ _ _ _ h4
  cases h6
  obtain ⟨hs1, _⟩ := tagP_single_ok_inv NEWLINE s r₁ w₁ h1
  obtain ⟨c₂, hr₁, hc₂⟩ := pvbi_ok_inv r₁ r₂ _ h3
  obtain ⟨hr₂, _⟩ := tagP_single_ok_inv NEWLINE r₂ _ w₃ h5
  refine ⟨NEWLINE :: (c₂ ++ [NEWLINE]), by simp, ?_⟩
  rw [hs1, hr₁, hr₂]
  simp

theorem pvb_ok_ext (s r v t : List Nat) (h : parse_value_binary s = .ok r v) :
    parse_value_binary (s ++ t) = .ok (r ++ t) v := by
  unfold parse_value_binary at h ⊢
  obtain ⟨r₁, w₁, h1, h2⟩ := PResult.bind_eq_ok _ _ _ _ h
  obtain ⟨r₂, v₂, h3, h4⟩ := PResult.bind_eq_ok _ _ _ _ h2
  obtain ⟨r₃, w₃, h5, h6⟩ := PResult.bind_eq_ok _ _ _ _ h4
  cases h6
  rw [tagP_single_ok_ext NEWLINE s r₁ w₁ t h1]
  simp only [PResult.bind_ok]
  rw [pvbi_ok_ext r₁ r₂ _ t h3]
  simp only [PResult.bind_ok]
  rw [tagP_single_ok_ext NEWLINE r₂ _ w₃ t h5]
  simp only [PResult.bind_ok]

theorem pvb_err_ext (s t : List Nat) (k : ErrKind) (h : parse_value_binary s = .error k) :
    parse_value_binary (s ++ t) = .error k := by
  unfold parse_value_binary at h ⊢
  rcases PResult.bind_eq_error _ _ _ h with h1 | ⟨r₁, w₁, h1, h2⟩
  · rw [tagP_single_err_ext NEWLINE s t k h1]
    simp only [PResult.bind_error]
  · rcases PResult.bind_eq_error _ _ _ h2 with h3 | ⟨r₂, v₂, h3, h4⟩
    · exact absurd h3 (pvbi_ne_error r₁ k)
    · rcases PResult.bind_eq_error _ _ _ h4 with h5 | ⟨r₃, w₃, h5, h6⟩
      · rw [tagP_single_ok_ext NEWLINE s r₁ w₁ t h1]
        simp only [PResult.bind_ok]
        rw [pvbi_ok_ext r₁ r₂ _ t h3]
        simp only [PResult.bind_ok]
        rw [tagP_single_err_ext NEWLINE r₂ t k h5]
        simp only [PResult.bind_error]
      · exact nomatch h6

theorem pvb_ne_crash (s : List Nat) : parse_value_binary s ≠ .crash := by
  intro h
  unfold parse_value_binary at h
  rcases PResult.bind_eq_crash _ _ h with h1 | ⟨r₁, w₁, h1, h2⟩
  · exact tagP_ne_crash _ s h1
  · rcases PResult.bind_eq_crash _ _ h2 with h3 | ⟨r₂, v₂, h3, h4⟩
    · exact pvbi_ne_crash r₁ h3
    · rcases PResult.bind_eq_crash _ _ h4 with h5 | ⟨r₃, w₃, h5, h6⟩
      · exact tagP_ne_crash _ r₂ h5
      · exact nomatch h6

theorem pvs_ok_inv (s r v : List Nat) (h : parse_value_string s = .ok r v) :
    ∃ c, c ≠ [] ∧ s = c ++ r := by
  unfold parse_value_string at h
  obtain ⟨r₁, w₁, h1, h2⟩ := PResult.bind_eq_ok _ _ _ _ h
  obtain ⟨r₂, w₂, h3, h4⟩ := PResult.bind_eq_ok _ _ _ _ h2
  obtain ⟨r₃, w₃, h5, h6⟩ := PResult.bind_eq_ok _ _ _ _ h4
  cases h6
  obtain ⟨hs1, _⟩ := tagP_single_ok_inv EQUALS s r₁ w₁ h1
  obtain ⟨hr₂, _⟩ := tagP_single_ok_inv NEWLINE r₂ _ w₃ h5
  rcases optP_ok_inv _ r₁ r₂ w₂ h3 with ⟨v₂, hp, hw⟩ | ⟨k, hp, hr, hw⟩
  · obtain ⟨_, hseq, _, _⟩ := takeWhile1P_ok_inv _ r₁ r₂ v₂ hp
    refine ⟨EQUALS :: (v₂ ++ [NEWLINE]), by simp, ?_⟩
    rw [hs1, hseq, hr₂]
    simp
  · refine ⟨[EQUALS, NEWLINE], by simp, ?_⟩
    rw [hr] at hr₂
    rw [hs1, hr₂]
    simp

theorem pvs_ok_ext (s r v t : List Nat) (h : parse_value_string s = .ok r v) :
    parse_value_string (s ++ t) = .ok (r ++ t) v := by
  unfold parse_value_string at h ⊢
  obtain ⟨r₁, w₁, h1, h2⟩ := PResult.bind_eq_ok _ _ _ _ h
  obtain ⟨r₂, w₂, h3, h4⟩ := PResult.bind_eq_ok _ _ _ _ h2
  obtain ⟨r₃, w₃, h5, h6⟩ := PResult.bind_eq_ok _ _ _ _ h4
  cases h6
  rw [tagP_single_ok_ext EQUALS s r₁ w₁ t h1]
  simp only [PResult.bind_ok]
  rw [optP_tw_ok_ext _ r₁ r₂ t w₂ h3]
  simp only [PResult.bind_ok]
  rw [tagP_single_ok_ext NEWLINE r₂ _ w₃ t h5]
  simp only [PResult.bind_ok]

theorem pvs_err_ext (s t : List Nat) (k : ErrKind) (h : parse_value_string s = .error k) :
    parse_value_string (s ++ t) = .error k := by
  unfold parse_value_string at h ⊢
  rcases PResult.bind_eq_error _ _ _ h with h1 | ⟨r₁, w₁, h1, h2⟩
  · rw [tagP_single_err_ext EQUALS s t k h1]
    simp only [PResult.bind_error]
  · rcases PResult.bind_eq_error _ _ _ h2 with h3 | ⟨r₂, w₂, h3, h4⟩
    · exact absurd h3 (optP_ne_error _ r₁ k)
    · rcases PResult.bind_eq_error _ _ _ h4 with h5 | ⟨r₃, w₃, h5, h6⟩
      · rw [tagP_single_ok_ext EQUALS s r₁ w₁ t h1]
        simp only [PResult.bind_ok]
        rw [optP_tw_ok_ext _ r₁ r₂ t w₂ h3]
        simp only [PResult.bind_ok]
        rw [tagP_single_err_ext NEWLINE r₂ t k h5]
        simp only [PResult.bind_error]
      · exact nomatch h6

theorem pvs_ne_crash (s : List Nat) : parse_value_string s ≠ .crash := by
  intro h
  unfold parse_value_string at h
  rcases PResult.bind_eq_crash _ _ h with h1 | ⟨r₁, w₁, h1, h2⟩
  · exact tagP_ne_crash _ s h1
  · rcases PResult.bind_eq_crash _ _ h2 with h3 | ⟨r₂, w₂, h3, h4⟩
    · exact optP_tw_ne_crash _ r₁ h3
    · rcases PResult.bind_eq_crash _ _ h4 with h5 | ⟨r₃, w₃, h5, h6⟩
      · exact tagP_ne_crash _ r₂ h5
      · exact nomatch h6

theorem parse_value_cons (b : Nat) (bs : List Nat) :
    parse_value (b :: bs) =
      if b = EQUALS then parse_value_string (b :: bs)
      else if b = NEWLINE then parse_value_binary (b :: bs)
      else .error .tag := rfl

theorem parse_value_ok_inv (s r v : List Nat) (h : parse_value s = .ok r v) :
    ∃ c, c ≠ [] ∧ s = c ++ r := by
  cases s with
  | nil => exact nomatch h
  | cons b bs =>
    rw [parse_value_cons] at h
    by_cases hb : b = EQUALS
    · rw [if_pos hb] at h
      exact pvs_ok_inv _ r v h
    · rw [if_neg hb] at h
      by_cases hb2 : b = NEWLINE
      · rw [if_pos hb2] at h
        exact pvb_ok_inv _ r v h
      · rw [if_neg hb2] at h
        exact nomatch h

theorem parse_value_ok_ext (s r v t : List Nat) (h : parse_value s = .ok r v) :
    parse_value (s ++ t) = .ok (r ++ t) v := by
  cases s with
  | nil => exact nomatch h
  | cons b bs =>
    rw [parse_value_cons] at h
    rw [List.cons_append, parse_value_cons]
    by_cases hb : b = EQUALS
    · rw [if_pos hb] at h ⊢
      have he := pvs_ok_ext (b :: bs) r v t h
      rw [List.cons_append] at he
      exact he
    · rw [if_neg hb] at h ⊢
      by_cases hb2 : b = NEWLINE
      · rw [if_pos hb2] at h ⊢
        have he := pvb_ok_ext (b :: bs) r v t h
        rw [List.cons_append] at he
        exact he
      · rw [if_neg hb2] at h
        exact nomatch h

theorem parse_value_err_ext (s t : List Nat) (k : ErrKind) (h : parse_value s = .error k) :
    parse_value (s ++ t) = .error k := by
  cases s with
  | nil => exact nomatch h
  | cons b bs =>
    rw [parse_value_cons] at h
    rw [List.cons_append, parse_value_cons]
    by_cases hb : b = EQUALS
    · rw [if_pos hb] at h ⊢
      have he := pvs_err_ext (b :: bs) t k h
      rw [List.cons_append] at he
      exact he
    · rw [if_neg hb] at h ⊢
      by_cases hb2 : b = NEWLINE
      · rw [if_pos hb2] at h ⊢
        have he := pvb_err_ext (b :: bs) t k h
        rw [List.cons_append] at he
        exact he
      · rw [if_neg hb2] at h ⊢
        cases h
        rfl

theorem parse_value_cons_ne_crash (b : Nat) (bs : List Nat) :
    parse_value (b :: bs) ≠ .crash := by
  rw [parse_value_cons]
  by_cases hb : b = EQUALS
  · rw [if_pos hb]
    exact pvs_ne_crash _
  · rw [if_neg hb]
    by_cases hb2 : b = NEWLINE
    · rw [if_pos hb2]
      exact pvb_ne_crash _
    · rw [if_neg hb2]
      intro h
      exact nomatch h

theorem pkv_ok_inv (s r : List Nat) (kv : KVP) (h : parse_key_value s = .ok r kv) :
    ∃ c, c ≠ [] ∧ s = c ++ r := by
  unfold parse_key_value at h
  obtain ⟨r₁, k₁, h1, h2⟩ := PResult.bind_eq_ok _ _ _ _ h
  obtain ⟨r₂, v₂, h3, h4⟩ := PResult.bind_eq_ok _ _ _ _ h2
  cases h4
  obtain ⟨hk₁, hs1, _, _⟩ := takeWhile1P_ok_inv _ s r₁ k₁ h1
  obtain ⟨c₂, hc₂, hr₁⟩ := parse_value_ok_inv r₁ _ _ h3
  refine ⟨k₁ ++ c₂, by simp [hk₁], ?_⟩
  rw [hs1, hr₁]
  simp

theorem pkv_ok_ext (s r t : List Nat) (kv : KVP) (h : parse_key_value s = .ok r kv) :
    parse_key_value (s ++ t) = .ok (r ++ t) kv := by
  unfold parse_key_value at h ⊢
  obtain ⟨r₁, k₁, h1, h2⟩ := PResult.bind_eq_ok _ _ _ _ h
  obtain ⟨r₂, v₂, h3, h4⟩ := PResult.bind_eq_ok _ _ _ _ h2
  cases h4
  have h1e : takeWhile1P (fun c => c != EQUALS && c != NEWLINE) (s ++ t) = .ok (r₁ ++ t) k₁ :=
    takeWhile1P_ok_ext _ s r₁ k₁ t h1
  show PResult.bind (parse_key (s ++ t)) _ = _
  unfold parse_key
  rw [h1e]
  simp only [PResult.bind_ok]
  rw [parse_value_ok_ext r₁ _ _ t h3]
  simp only [PResult.bind_ok]

theorem pkv_err_ext (s t : List Nat) (k : ErrKind) (h : parse_key_value s = .error k) :
    parse_key_value (s ++ t) = .error k := by
  unfold parse_key_value at h ⊢
  rcases PResult.bind_eq_error _ _ _ h with h1 | ⟨r₁, k₁, h1, h2⟩
  · show PResult.bind (parse_key (s ++ t)) _ = _
    unfold parse_key at h1 ⊢
    rw [takeWhile1P_err_ext _ s t k h1]
    simp only [PResult.bind_error]
  · rcases PResult.bind_eq_error _ _ _ h2 with h3 | ⟨r₂, v₂, h3, h4⟩
    · show PResult.bind (parse_key (s ++ t)) _ = _
      unfold parse_key at h1 ⊢
      rw [takeWhile1P_ok_ext _ s r₁ k₁ t h1]
      simp only [PResult.bind_ok]
      rw [parse_value_err_ext r₁ t k h3]
      simp only [PResult.bind_error]
    · exact nomatch h4

theorem pkv_ne_crash (s : List Nat) : parse_key_value s ≠ .crash := by
  intro h
  unfold parse_key_value at h
  rcases PResult.bind_eq_crash _ _ h with h1 | ⟨r₁, k₁, h1, h2⟩
  · exact takeWhile1P_ne_crash _ s h1
  · rcases PResult.bind_eq_crash _ _ h2 with h3 | ⟨r₂, v₂, h3, h4⟩
    · obtain ⟨_, _, _, c, rest, hr, _⟩ := takeWhile1P_ok_inv _ s r₁ k₁ h1
      rw [hr] at h3
      exact parse_value_cons_ne_crash c rest h3
    · exact nomatch h4

theorem pem_ok_ext (s r : List Nat) (v : Option KVP) (t : List Nat)
    (h : parse_end_of_msg s = .ok r v) :
    parse_end_of_msg (s ++ t) = .ok (r ++ t) v := by
  unfold parse_end_of_msg at h
  cases htag : tagP [NEWLINE] s with
  | ok r₀ w₀ =>
    rw [htag] at h
    cases h
    obtain ⟨hs, _⟩ := tagP_single_ok_inv NEWLINE s r₀ w₀ htag
    subst hs
    rw [List.cons_append]
    exact pem_newline (r₀ ++ t)
  | error k₀ =>
    cases k₀ with
    | takeWhile1 =>
      obtain ⟨_, _, _, _, hk⟩ := tagP_single_err_inv NEWLINE s _ htag
      exact nomatch hk
    | tag =>
      rw [htag] at h
      cases hkv : parse_key_value s with
      | ok r₁ kv =>
        rw [hkv] at h
        cases h
        obtain ⟨b, bs, hs, hb, _⟩ := tagP_single_err_inv NEWLINE s .tag htag
        subst hs
        have hkv' := pkv_ok_ext (b :: bs) _ t kv hkv
        rw [List.cons_append] at hkv'
        rw [List.cons_append]
        unfold parse_end_of_msg
        rw [tagP_cons_ne NEWLINE b (bs ++ t) hb, hkv']
      | error k' => rw [hkv] at h; exact nomatch h
      | incomplete n => rw [hkv] at h; exact nomatch h
      | crash => rw [hkv] at h; exact nomatch h
  | incomplete n => rw [htag] at h; exact nomatch h
  | crash => exact absurd htag (tagP_ne_crash _ _)

theorem pem_ok_consume (s r : List Nat) (v : Option KVP)
    (h : parse_end_of_msg s = .ok r v) : ∃ c, c ≠ [] ∧ s = c ++ r := by
  unfold parse_end_of_msg at h
  cases htag : tagP [NEWLINE] s with
  | ok r₀ w₀ =>
    rw [htag] at h
    cases h
    obtain ⟨hs, _⟩ := tagP_single_ok_inv NEWLINE s r₀ w₀ htag
    refine ⟨[NEWLINE], by simp, ?_⟩
    rw [hs]
    rfl
  | error k₀ =>
    cases k₀ with
    | takeWhile1 =>
      obtain ⟨_, _, _, _, hk⟩ := tagP_single_err_inv NEWLINE s _ htag
      exact nomatch hk
    | tag =>
      rw [htag] at h
      cases hkv : parse_key_value s with
      | ok r₁ kv =>
        rw [hkv] at h
        cases h
        exact pkv_ok_inv s _ kv hkv
      | error k' => rw [hkv] at h; exact nomatch h
      | incomplete n => rw [hkv] at h; exact nomatch h
      | crash => rw [hkv] at h; exact nomatch h
  | incomplete n => rw [htag] at h; exact nomatch h
  | crash => exact absurd htag (tagP_ne_crash _ _)

theorem pem_err_ext (s t : List Nat) (k : ErrKind) (h : parse_end_of_msg s = .error k) :
    parse_end_of_msg (s ++ t) = .error k := by
  unfold parse_end_of_msg at h
  cases htag : tagP [NEWLINE] s with
  | ok r₀ w₀ => rw [htag] at h; exact nomatch h
  | error k₀ =>
    cases k₀ with
    | takeWhile1 =>
      obtain ⟨_, _, _, _, hk⟩ := tagP_single_err_inv NEWLINE s _ htag
      exact nomatch hk
    | tag =>
      rw [htag] at h
      obtain ⟨b, bs, hs, hb, _⟩ := tagP_single_err_inv NEWLINE s .tag htag
      cases hkv : parse_key_value s with
      | ok r₁ kv => rw [hkv] at h; exact nomatch h
      | error k' =>
        rw [hkv] at h
        cases h
        subst hs
        have hkv' := pkv_err_ext (b :: bs) t _ hkv
        rw [List.cons_append] at hkv'
        rw [List.cons_append]
        unfold parse_end_of_msg
        rw [tagP_cons_ne NEWLINE b (bs ++ t) hb, hkv']
      | incomplete n => rw [hkv] at h; exact nomatch h
      | crash => rw [hkv] at h; exact nomatch h
  | incomplete n => rw [htag] at h; exact nomatch h
  | crash => exact absurd htag (tagP_ne_crash _ _)

theorem pem_ne_crash (s : List Nat) : parse_end_of_msg s ≠ .crash := by
  intro h
  unfold parse_end_of_msg at h
  cases htag : tagP [NEWLINE] s with
  | ok r₀ w₀ => rw [htag] at h; exact nomatch h
  | error k₀ =>
    cases k₀ with
    | takeWhile1 =>
      obtain ⟨_, _, _, _, hk⟩ := tagP_single_err_inv NEWLINE s _ htag
      exact nomatch hk
    | tag =>
      rw [htag] at h
      cases hkv : parse_key_value s with
      | ok r₁ kv => rw [hkv] at h; exact nomatch h
      | error k' => rw [hkv] at h; exact nomatch h
      | incomplete n => rw [hkv] at h; exact nomatch h
      | crash => exact pkv_ne_crash s hkv
  | incomplete n => rw [htag] at h; exact nomatch h
  | crash => exact absurd htag (tagP_ne_crash _ _)

theorem refNext_succ (f : Nat) (s : List Nat) (acc : List KVP) :
    refNext (f + 1) s acc =
      match parse_end_of_msg s with
      | .ok rem none => .yieldR ⟨acc⟩ rem
      | .ok rem (some kv) => refNext f rem (acc ++ [kv])
      | .incomplete _ => .endR
      | .error _ => .fatalR
      | .crash => .fatalR := rfl

theorem refNext_step_yield (f : Nat) (s rem : List Nat) (acc : List KVP)
    (hp : parse_end_of_msg s = .ok rem none) :
    refNext (f + 1) s acc = .yieldR ⟨acc⟩ rem := by
  rw [refNext_succ, hp]

theorem refNext_step_field (f : Nat) (s rem : List Nat) (acc : List KVP) (kv : KVP)
    (hp : parse_end_of_msg s = .ok rem (some kv)) :
    refNext (f + 1) s acc = refNext f rem (acc ++ [kv]) := by
  rw [refNext_succ, hp]

theorem refNext_step_inc (f : Nat) (s : List Nat) (acc : List KVP) (n : Nat)
    (hp : parse_end_of_msg s = .incomplete n) :
    refNext (f + 1) s acc = .endR := by
  rw [refNext_succ, hp]

theorem refNext_step_err (f : Nat) (s : List Nat) (acc : List KVP) (k : ErrKind)
    (hp : parse_end_of_msg s = .error k) :
    refNext (f + 1) s acc = .fatalR := by
  rw [refNext_succ, hp]

theorem refNext_fuel_eq : ∀ (f g : Nat) (s : List Nat) (acc : List KVP),
    s.length + 1 ≤ f → s.length + 1 ≤ g → refNext f s acc = refNext g s acc := by
  intro f
  induction f with
  | zero => intro g s acc h _; omega
  | succ f ih =>
    intro g s acc hf hg
    obtain ⟨g', rfl⟩ : ∃ g', g = g' + 1 := ⟨g - 1, by omega⟩
    cases hp : parse_end_of_msg s with
    | ok rem kvp =>
      obtain ⟨c, hc, hs⟩ := pem_ok_consume s rem kvp hp
      have hlt : rem.length < s.length := by
        rw [hs, List.length_append]
        cases c with
        | nil => exact absurd rfl hc
        | cons a as => simp
      cases kvp with
      | none =>
        rw [refNext_step_yield f s rem acc hp, refNext_step_yield g' s rem acc hp]
      | some kv =>
        rw [refNext_step_field f s rem acc kv hp, refNext_step_field g' s rem acc kv hp]
        exact ih g' rem (acc ++ [kv]) (by omega) (by omega)
    | incomplete n =>
      rw [refNext_step_inc f s acc n hp, refNext_step_inc g' s acc n hp]
    | error k =>
      rw [refNext_step_err f s acc k hp, refNext_step_err g' s acc k hp]
    | crash => exact absurd hp (pem_ne_crash s)

theorem drop_sub_of_split (rem : List Nat) (rr : Nat) (c r : List Nat)
    (hrr : rr ≤ rem.length) (hsplit : rem.drop rr = c ++ r) :
    rem.drop (rem.length - r.length) = r ∧ rem.length = rr + c.length + r.length := by
  have hrem : rem = (rem.take rr ++ c) ++ r := by
    conv_lhs => rw [← List.take_append_drop rr rem]
    rw [hsplit, List.append_assoc]
  have hlen : (rem.take rr ++ c).length = rr + c.length := by
    rw [List.length_append, List.length_take]
    omega
  have hlen2 : rem.length = rr + c.length + r.length := by
    conv_lhs => rw [hrem]
    rw [List.length_append, hlen]
  refine ⟨?_, hlen2⟩
  have key : rem.drop (rr + c.length) = r := by
    conv_lhs => rw [hrem]
    rw [← hlen]
    exact List.drop_left _ _
  rw [show rem.length - r.length = rr + c.length by omega]
  exact key

theorem readStep_nil (rem : List Nat) (rr : Nat) (fil : Option JFilter) :
    readStep ⟨[], rem, rr, fil⟩ = (some 0, ⟨[], rem.drop rr, 0, fil⟩) := rfl

theorem readStep_ioErr (rest : List ReadEvent) (rem : List Nat) (rr : Nat)
    (fil : Option JFilter) :
    readStep ⟨.ioError :: rest, rem, rr, fil⟩ = (none, ⟨rest, rem.drop rr, 0, fil⟩) := rfl

theorem readStep_good_chunk (c : List Nat) (rest : List ReadEvent) (rem : List Nat) (rr : Nat)
    (hc : c ≠ []) (hrr : rr ≤ rem.length) (hgood : goodSource (.chunk c :: rest))
    (htot : rem.length + (flatSrc (.chunk c :: rest)).length < 10000000) :
    readStep ⟨.chunk c :: rest, rem, rr, none⟩ =
      (some (c.take 32768).length,
        ⟨if (c.drop 32768).isEmpty then rest else .chunk (c.drop 32768) :: rest,
          rem.drop rr ++ c.take 32768, 0, none⟩) ∧
    (c.take 32768).length ≠ 0 ∧
    invState ⟨if (c.drop 32768).isEmpty then rest else .chunk (c.drop 32768) :: rest,
      rem.drop rr ++ c.take 32768, 0, none⟩ ∧
    virtBytes ⟨if (c.drop 32768).isEmpty then rest else .chunk (c.drop 32768) :: rest,
      rem.drop rr ++ c.take 32768, 0, none⟩ =
      virtBytes ⟨.chunk c :: rest, rem, rr, none⟩ ∧
    loopMeasure ⟨if (c.drop 32768).isEmpty then rest else .chunk (c.drop 32768) :: rest,
      rem.drop rr ++ c.take 32768, 0, none⟩ <
      loopMeasure ⟨.chunk c :: rest, rem, rr, none⟩ := by
  have hcpos : 0 < c.length := List.length_pos.mpr hc
  obtain ⟨hg1, hg2⟩ := hgood
  have hflat : flatSrc (.chunk c :: rest) = c ++ flatSrc rest := rfl
  rw [hflat, List.length_append] at htot
  refine ⟨readStep_chunk rest rem rr none c, ?_, ?_, ?_, ?_⟩
  · rw [List.length_take]
    omega
  · refine ⟨rfl, by simp, ?_, ?_⟩
    · by_cases he : (c.drop 32768).isEmpty
      · rw [if_pos he]
        exact hg2
      · rw [if_neg he]
        refine ⟨?_, hg2⟩
        intro hd
        exact (he (by rw [hd]; rfl)).elim
    · by_cases he : (c.drop 32768).isEmpty
      · rw [if_pos he]
        show (rem.drop rr ++ c.take 32768).length + (flatSrc rest).length < 10000000
        rw [List.length_append, List.length_drop, List.length_take]
        omega
      · rw [if_neg he]
        show (rem.drop rr ++ c.take 32768).length +
          (flatSrc (.chunk (c.drop 32768) :: rest)).length < 10000000
        rw [show flatSrc (.chunk (c.drop 32768) :: rest) = c.drop 32768 ++ flatSrc rest from rfl]
        rw [List.length_append, List.length_append, List.length_drop, List.length_take,
          List.length_drop]
        omega
  · by_cases he : (c.drop 32768).isEmpty
    · have hd : c.drop 32768 = [] := by
        cases hcc : c.drop 32768 with
        | nil => rfl
        | cons a l => rw [hcc] at he; exact nomatch he
      have hcle : c.length ≤ 32768 := by
        have := congrArg List.length hd
        rw [List.length_drop] at this
        simp at this
        omega
      rw [if_pos he]
      show (rem.drop rr ++ c.take 32768).drop 0 ++ flatSrc rest =
        rem.drop rr ++ flatSrc (.chunk c :: rest)
      rw [List.drop_zero, List.take_of_length_le hcle, hflat, List.append_assoc]
    · rw [if_neg he]
      show (rem.drop rr ++ c.take 32768).drop 0 ++ (c.drop 32768 ++ flatSrc rest) =
        rem.drop rr ++ flatSrc (.chunk c :: rest)
      rw [List.drop_zero, hflat, List.append_assoc,
        ← List.append_assoc (c.take 32768) (c.drop 32768) (flatSrc rest),
        List.take_append_drop]
  · by_cases he : (c.drop 32768).isEmpty
    · have hd : c.drop 32768 = [] := by
        cases hcc : c.drop 32768 with
        | nil => rfl
        | cons a l => rw [hcc] at he; exact nomatch he
      have hcle : c.length ≤ 32768 := by
        have := congrArg List.length hd
        rw [List.length_drop] at this
        simp at this
        omega
      rw [if_pos he]
      show ((rem.drop rr ++ c.take 32768).drop 0).length + 2 * (flatSrc rest).length +
          rest.length + 1 <
        (rem.drop rr).length + 2 * (flatSrc (.chunk c :: rest)).length +
          (ReadEvent.chunk c :: rest).length + 1
      simp only [List.drop_zero, hflat, List.length_append, List.length_take,
        List.length_drop, List.length_cons]
      omega
    · have hd : c.drop 32768 ≠ [] := by
        intro hdd
        exact he (by rw [hdd]; rfl)
      have hcgt : 32768 < c.length := by
        have := List.length_pos.mpr hd
        rw [List.length_drop] at this
        omega
      rw [if_neg he]
      show ((rem.drop rr ++ c.take 32768).drop 0).length +
          2 * (flatSrc (.chunk (c.drop 32768) :: rest)).length +
          (ReadEvent.chunk (c.drop 32768) :: rest).length + 1 <
        (rem.drop rr).length + 2 * (flatSrc (.chunk c :: rest)).length +
          (ReadEvent.chunk c :: rest).length + 1
      rw [show flatSrc (.chunk (c.drop 32768) :: rest) = c.drop 32768 ++ flatSrc rest from rfl]
      simp only [List.drop_zero, hflat, List.length_append, List.length_take,
        List.length_drop, List.length_cons]
      omega

theorem readStep_src_nil (st : RState) (h : st.source = []) :
    readStep st = (some 0, ⟨[], st.remainder.drop st.remainderRead, 0, st.filter⟩) := by
  obtain ⟨src, rem0, rr0, fil0⟩ := st
  have h' : src = [] := h
  subst h'
  rfl

theorem readStep_src_chunk (st : RState) (c : List Nat) (rest : List ReadEvent)
    (h : st.source = .chunk c :: rest) :
    readStep st = (some (c.take 32768).length,
      ⟨if (c.drop 32768).isEmpty then rest else .chunk (c.drop 32768) :: rest,
        st.remainder.drop st.remainderRead ++ c.take 32768, 0, st.filter⟩) := by
  obtain ⟨src, rem0, rr0, fil0⟩ := st
  have h' : src = .chunk c :: rest := h
  subst h'
  rfl

theorem nextLoop_ref : ∀ (f : Nat) (st : RState) (acc : List KVP),
    invState st → loopMeasure st ≤ f →
    (match refNext ((virtBytes st).length + 1) (virtBytes st) acc with
     | .yieldR m rest => ∃ st', (nextLoop f st acc).1 = .yield m st' ∧ invState st' ∧
         virtBytes st' = rest ∧ loopMeasure st' < loopMeasure st
     | .endR => ∃ st', (nextLoop f st acc).1 = .stop st'
     | .fatalR => (nextLoop f st acc).1 = .panicParse) := by
  intro f
  induction f with
  | zero =>
    intro st acc _ hm
    exact absurd hm (by unfold loopMeasure; omega)
  | succ f ih =>
    intro st acc hinv hm
    obtain ⟨hfil, hrr, hgood, htot⟩ := hinv
    have hg : st.remainder.length < 10000000 := by omega
    have hV : virtBytes st = st.remainder.drop st.remainderRead ++ flatSrc st.source := rfl
    cases hp : parse_end_of_msg (st.remainder.drop st.remainderRead) with
    | ok rem kvp =>
      obtain ⟨c, hc, hsplit⟩ := pem_ok_consume _ rem kvp hp
      obtain ⟨hd, hlen2⟩ := drop_sub_of_split st.remainder st.remainderRead c rem hrr hsplit
      have hcpos : 0 < c.length := List.length_pos.mpr hc
      have hpV : parse_end_of_msg (virtBytes st) = .ok (rem ++ flatSrc st.source) kvp := by
        rw [hV]
        exact pem_ok_ext _ rem kvp (flatSrc st.source) hp
      have hinv' : invState ⟨st.source, st.remainder, st.remainder.length - rem.length,
          st.filter⟩ := by
        refine ⟨hfil, ?_, hgood, htot⟩
        show st.remainder.length - rem.length ≤ st.remainder.length
        omega
      have hvirt' : virtBytes ⟨st.source, st.remainder, st.remainder.length - rem.length,
          st.filter⟩ = rem ++ flatSrc st.source := by
        show st.remainder.drop (st.remainder.length - rem.length) ++ flatSrc st.source = _
        rw [hd]
      have hmeas' : loopMeasure ⟨st.source, st.remainder, st.remainder.length - rem.length,
          st.filter⟩ < loopMeasure st := by
        show (st.remainder.drop (st.remainder.length - rem.length)).length +
            2 * (flatSrc st.source).length + st.source.length + 1 <
          (st.remainder.drop st.remainderRead).length +
            2 * (flatSrc st.source).length + st.source.length + 1
        rw [hd, hsplit, List.length_append]
        omega
      cases kvp with
      | some kv =>
        have hlV : (rem ++ flatSrc st.source).length + 1 ≤ (virtBytes st).length := by
          rw [hV, hsplit]
          simp only [List.length_append]
          omega
        have e1 : refNext ((virtBytes st).length + 1) (virtBytes st) acc =
            refNext ((virtBytes ⟨st.source, st.remainder,
                st.remainder.length - rem.length, st.filter⟩).length + 1)
              (virtBytes ⟨st.source, st.remainder, st.remainder.length - rem.length,
                st.filter⟩) (acc ++ [kv]) := by
          rw [refNext_step_field ((virtBytes st).length) _ _ _ _ hpV, hvirt']
          exact refNext_fuel_eq ((virtBytes st).length)
            ((rem ++ flatSrc st.source).length + 1) (rem ++ flatSrc st.source)
            (acc ++ [kv]) hlV (le_refl _)
        have e2 : (nextLoop (f + 1) st acc).1 =
            (nextLoop f ⟨st.source, st.remainder, st.remainder.length - rem.length,
              st.filter⟩ (acc ++ [kv])).1 := by
          rw [nextLoop_field f st acc rem kv hg hp]
        have hrec := ih ⟨st.source, st.remainder, st.remainder.length - rem.length, st.filter⟩
          (acc ++ [kv]) hinv' (by omega)
        rw [e1, e2]
        cases hr : refNext ((virtBytes ⟨st.source, st.remainder,
            st.remainder.length - rem.length, st.filter⟩).length + 1)
            (virtBytes ⟨st.source, st.remainder, st.remainder.length - rem.length,
              st.filter⟩) (acc ++ [kv]) with
        | yieldR m rest =>
          rw [hr] at hrec
          obtain ⟨st'', h1, h2, h3, h4⟩ := hrec
          exact ⟨st'', h1, h2, h3, by omega⟩
        | endR =>
          rw [hr] at hrec
          exact hrec
        | fatalR =>
          rw [hr] at hrec
          exact hrec
      | none =>
        have hsf : shouldFilter st.filter ⟨acc⟩ = some false := by
          rw [hfil]
          rfl
        rw [refNext_step_yield ((virtBytes st).length) _ _ acc hpV]
        show ∃ st', (nextLoop (f + 1) st acc).1 = .yield ⟨acc⟩ st' ∧ invState st' ∧
          virtBytes st' = rem ++ flatSrc st.source ∧ loopMeasure st' < loopMeasure st
        refine ⟨⟨st.source, st.remainder, st.remainder.length - rem.length, st.filter⟩,
          ?_, hinv', hvirt', hmeas'⟩
        rw [nextLoop_yield f st acc rem hg hp hsf]
    | incomplete n =>
      cases hsrcEq : st.source with
      | nil =>
        have hVe : virtBytes st = st.remainder.drop st.remainderRead := by
          rw [hV, hsrcEq, show flatSrc [] = ([] : List Nat) from rfl, List.append_nil]
        have hpV : parse_end_of_msg (virtBytes st) = .incomplete n := by
          rw [hVe]
          exact hp
        rw [refNext_step_inc ((virtBytes st).length) _ acc n hpV]
        exact ⟨_, by rw [nextLoop_read_eof f st acc n _ hg hp (readStep_src_nil st hsrcEq)]⟩
      | cons ev rest =>
        cases ev with
        | ioError =>
          rw [hsrcEq] at hgood
          exact hgood.elim
        | chunk c =>
          by_cases hcn : c = []
          · subst hcn
            rw [hsrcEq] at hgood
            obtain ⟨hg1, hg2⟩ := hgood
            have hfr : flatSrc rest = [] := hg1 rfl
            have hVe : virtBytes st = st.remainder.drop st.remainderRead := by
              rw [hV, hsrcEq,
                show flatSrc (.chunk [] :: rest) = [] ++ flatSrc rest from rfl, hfr]
              simp
            have hpV : parse_end_of_msg (virtBytes st) = .incomplete n := by
              rw [hVe]
              exact hp
            rw [refNext_step_inc ((virtBytes st).length) _ acc n hpV]
            have hrs := readStep_src_chunk st [] rest hsrcEq
            simp only [List.take_nil, List.drop_nil, List.length_nil, List.isEmpty_nil,
              if_true, List.append_nil] at hrs
            exact ⟨_, by rw [nextLoop_read_eof f st acc n _ hg hp hrs]⟩
          · have hrw : st = ⟨.chunk c :: rest, st.remainder, st.remainderRead, none⟩ := by
              rw [← hsrcEq, ← hfil]
            obtain ⟨hrsEq, hl0, hinv₁, hvirt₁, hmeas₁⟩ :=
              readStep_good_chunk c rest st.remainder st.remainderRead hcn hrr
                (hsrcEq ▸ hgood) (hsrcEq ▸ htot)
            have e2 : (nextLoop (f + 1) st acc).1 =
                (nextLoop f ⟨if (c.drop 32768).isEmpty then rest
                    else .chunk (c.drop 32768) :: rest,
                  st.remainder.drop st.remainderRead ++ c.take 32768, 0, none⟩ acc).1 :=
              nextLoop_read_fst f st acc n (c.take 32768).length _ hg hp
                (by rw [hrw]; exact hrsEq) hl0
            have hms : loopMeasure st =
                loopMeasure ⟨.chunk c :: rest, st.remainder, st.remainderRead, none⟩ := by
              rw [hrw]
            have hrec := ih ⟨if (c.drop 32768).isEmpty then rest
                else .chunk (c.drop 32768) :: rest,
              st.remainder.drop st.remainderRead ++ c.take 32768, 0, none⟩ acc hinv₁
              (by omega)
            have hveq : virtBytes ⟨if (c.drop 32768).isEmpty then rest
                else .chunk (c.drop 32768) :: rest,
              st.remainder.drop st.remainderRead ++ c.take 32768, 0, none⟩ =
                virtBytes st := by
              rw [hvirt₁, ← hrw]
            rw [hveq] at hrec
            rw [← e2] at hrec
            cases hr : refNext ((virtBytes st).length + 1) (virtBytes st) acc with
            | yieldR m rest' =>
              rw [hr] at hrec
              obtain ⟨st'', h1, h2, h3, h4⟩ := hrec
              exact ⟨st'', h1, h2, h3, by omega⟩
            | endR =>
              rw [hr] at hrec
              exact hrec
            | fatalR =>
              rw [hr] at hrec
              exact hrec
    | error k =>
      have hpV : parse_end_of_msg (virtBytes st) = .error k := by
        rw [hV]
        exact pem_err_ext _ _ k hp
      rw [refNext_step_err ((virtBytes st).length) _ acc k hpV]
      show (nextLoop (f + 1) st acc).1 = .panicParse
      rw [nextLoop_parse_err f st acc k hg hp]
    | crash => exact absurd hp (pem_ne_crash _)

theorem next_ref (f : Nat) (st : RState) (hinv : invState st) (hm : loopMeasure st ≤ f) :
    (match refNext ((virtBytes st).length + 1) (virtBytes st) [] with
     | .yieldR m rest => ∃ st', (next f st).1 = .yield m st' ∧ invState st' ∧
         virtBytes st' = rest ∧ loopMeasure st' < loopMeasure st
     | .endR => ∃ st', (next f st).1 = .stop st'
     | .fatalR => (next f st).1 = .panicParse) := by
  cases hre : st.remainder.isEmpty with
  | false =>
    rw [next_nonempty f st hre]
    exact nextLoop_ref f st [] hinv hm
  | true =>
    have hrn : st.remainder = [] := by
      cases hh : st.remainder with
      | nil => rfl
      | cons a l => rw [hh] at hre; exact nomatch hre
    have hVflat : virtBytes st = flatSrc st.source := by
      show st.remainder.drop st.remainderRead ++ flatSrc st.source = _
      rw [hrn]
      simp
    cases hsrcEq : st.source with
    | nil =>
      have hV0 : virtBytes st = [] := by
        rw [hVflat, hsrcEq]
        rfl
      have hpV : parse_end_of_msg (virtBytes st) = .incomplete 1 := by
        rw [hV0]
        rfl
      rw [refNext_step_inc ((virtBytes st).length) _ [] 1 hpV]
      exact ⟨_, by rw [next_empty_eof f st _ hre (readStep_src_nil st hsrcEq)]⟩
    | cons ev rest =>
      cases ev with
      | ioError =>
        have hgood := hinv.2.2.1
        rw [hsrcEq] at hgood
        exact hgood.elim
      | chunk c =>
        by_cases hcn : c = []
        · subst hcn
          have hgood := hinv.2.2.1
          rw [hsrcEq] at hgood
          obtain ⟨hg1, hg2⟩ := hgood
          have hfr : flatSrc rest = [] := hg1 rfl
          have hV0 : virtBytes st = [] := by
            rw [hVflat, hsrcEq,
              show flatSrc (.chunk [] :: rest) = [] ++ flatSrc rest from rfl, hfr]
            rfl
          have hpV : parse_end_of_msg (virtBytes st) = .incomplete 1 := by
            rw [hV0]
            rfl
          rw [refNext_step_inc ((virtBytes st).length) _ [] 1 hpV]
          have hrs := readStep_src_chunk st [] rest hsrcEq
          simp only [List.take_nil, List.drop_nil, List.length_nil, List.isEmpty_nil,
            if_true, List.append_nil] at hrs
          exact ⟨_, by rw [next_empty_eof f st _ hre hrs]⟩
        · have hrw : st = ⟨.chunk c :: rest, st.remainder, st.remainderRead, none⟩ := by
            rw [← hsrcEq, ← hinv.1]
          obtain ⟨hrsEq, hl0, hinv₁, hvirt₁, hmeas₁⟩ :=
            readStep_good_chunk c rest st.remainder st.remainderRead hcn hinv.2.1
              (hsrcEq ▸ hinv.2.2.1) (hsrcEq ▸ hinv.2.2.2)
          have hnx : next f st = nextLoop f ⟨if (c.drop 32768).isEmpty then rest
              else .chunk (c.drop 32768) :: rest,
            st.remainder.drop st.remainderRead ++ c.take 32768, 0, none⟩ [] :=
            next_empty_read f st (c.take 32768).length _ hre (by rw [hrw]; exact hrsEq) hl0
          have hms : loopMeasure st =
              loopMeasure ⟨.chunk c :: rest, st.remainder, st.remainderRead, none⟩ := by
            rw [hrw]
          have hrec := nextLoop_ref f ⟨if (c.drop 32768).isEmpty then rest
              else .chunk (c.drop 32768) :: rest,
            st.remainder.drop st.remainderRead ++ c.take 32768, 0, none⟩ [] hinv₁
            (by omega)
          have hveq : virtBytes ⟨if (c.drop 32768).isEmpty then rest
              else .chunk (c.drop 32768) :: rest,
            st.remainder.drop st.remainderRead ++ c.take 32768, 0, none⟩ =
              virtBytes st := by
            rw [hvirt₁, ← hrw]
          rw [hveq] at hrec
          rw [← hnx] at hrec
          cases hr : refNext ((virtBytes st).length + 1) (virtBytes st) [] with
          | yieldR m rest' =>
            rw [hr] at hrec
            obtain ⟨st'', h1, h2, h3, h4⟩ := hrec
            exact ⟨st'', h1, h2, h3, by omega⟩
          | endR =>
            rw [hr] at hrec
            exact hrec
          | fatalR =>
            rw [hr] at hrec
            exact hrec

theorem refAll_succ (f : Nat) (s : List Nat) :
    refAll (f + 1) s =
      match refNext (s.length + 1) s [] with
      | .yieldR m rest => (refAll f rest).map (fun l => m :: l)
      | .endR => some []
      | .fatalR => none := rfl

theorem decodeAll_ref : ∀ (f : Nat) (st : RState), invState st → loopMeasure st ≤ f →
    (decodeAll f st).1 = refAll f (virtBytes st) := by
  intro f
  induction f with
  | zero =>
    intro st _ hm
    exact absurd hm (by unfold loopMeasure; omega)
  | succ f ih =>
    intro st hinv hm
    have href := next_ref (f + 1) st hinv hm
    rcases hnx : next (f + 1) st with ⟨o, g⟩
    rw [refAll_succ]
    cases hr : refNext ((virtBytes st).length + 1) (virtBytes st) [] with
    | yieldR m rest =>
      rw [hr] at href
      obtain ⟨st', h1, h2, h3, h4⟩ := href
      rw [hnx] at h1
      have h1' : o = .yield m st' := h1
      subst h1'
      have hda : (decodeAll (f + 1) st).1 = (decodeAll f st').1.map (fun l => m :: l) := by
        simp only [decodeAll, hnx]
      rw [hda, ih st' h2 (by omega), h3]
    | endR =>
      rw [hr] at href
      obtain ⟨st', h1⟩ := href
      rw [hnx] at h1
      have h1' : o = .stop st' := h1
      subst h1'
      simp only [decodeAll, hnx]
    | fatalR =>
      rw [hr] at href
      rw [hnx] at href
      have h1' : o = .panicParse := href
      subst h1'
      simp only [decodeAll, hnx]

/-- C1 amended: for every byte stream strictly below the 10,000,000-byte
runaway ceiling, splitting it at any positive offset and feeding it to the
reader as two separate refills yields exactly the same decode outcome (the
same records with the same fields in the same order, or the same failure) as
feeding the stream whole — in particular resumption works when the split
falls inside a field name, the 8-byte length prefix, or a binary payload.
At the ceiling the equivalence breaks: the split changes the refill phase
the loop-head ceiling check observes (see the counterexample). -/
theorem claim1_split_refill_equiv (s : List Nat) (i : Nat) (hi : 0 < i)
    (hlen : s.length < 10000000) :
    (decodeAll (2 * s.length + 3)
        (initState [.chunk (s.take i), .chunk (s.drop i)] none)).1 =
      (decodeAll (2 * s.length + 3) (initState [.chunk s] none)).1 := by
  have hv1 : virtBytes (initState [.chunk s] none) = s := by
    show ([] : List Nat).drop 0 ++ (s ++ ([] : List Nat)) = s
    simp
  have hinv1 : invState (initState [.chunk s] none) := by
    refine ⟨rfl, le_refl 0, ⟨fun _ => rfl, trivial⟩, ?_⟩
    show ([] : List Nat).length + (s ++ ([] : List Nat)).length < 10000000
    simpa using hlen
  have hm1 : loopMeasure (initState [.chunk s] none) ≤ 2 * s.length + 3 := by
    show (([] : List Nat).drop 0).length + 2 * (s ++ ([] : List Nat)).length +
      ([ReadEvent.chunk s] : List ReadEvent).length + 1 ≤ 2 * s.length + 3
    simp only [List.drop_zero, List.length_nil, List.append_nil, List.length_cons]
    omega
  have hv2 : virtBytes (initState [.chunk (s.take i), .chunk (s.drop i)] none) = s := by
    show ([] : List Nat).drop 0 ++ (s.take i ++ (s.drop i ++ ([] : List Nat))) = s
    simp [List.take_append_drop]
  have hinv2 : invState (initState [.chunk (s.take i), .chunk (s.drop i)] none) := by
    refine ⟨rfl, le_refl 0, ⟨?_, fun _ => rfl, trivial⟩, ?_⟩
    · intro hta
      rcases List.take_eq_nil_iff.mp hta with h0 | hse
      · exact absurd h0 (by omega)
      · rw [hse]
        show List.drop i [] ++ ([] : List Nat) = []
        simp
    · show ([] : List Nat).length + (s.take i ++ (s.drop i ++ ([] : List Nat))).length <
        10000000
      simp only [List.length_nil, List.append_nil, List.length_append, List.length_take,
        List.length_drop]
      omega
  have hm2 : loopMeasure (initState [.chunk (s.take i), .chunk (s.drop i)] none) ≤
      2 * s.length + 3 := by
    show (([] : List Nat).drop 0).length +
      2 * (s.take i ++ (s.drop i ++ ([] : List Nat))).length +
      ([ReadEvent.chunk (s.take i), ReadEvent.chunk (s.drop i)] : List ReadEvent).length + 1 ≤
      2 * s.length + 3
    simp only [List.drop_zero, List.length_nil, List.append_nil, List.length_append,
      List.length_take, List.length_drop, List.length_cons]
    omega
  rw [decodeAll_ref (2 * s.length + 3) _ hinv2 hm2,
    decodeAll_ref (2 * s.length + 3) _ hinv1 hm1, hv1, hv2]

/-- C1 witness: the record `a=1\n` followed by its separator, split in the
middle of the field (offset 2): both feeds decode to the single record with
field `a` ↦ `1`. -/
theorem claim1_split_refill_equiv_witness :
    (decodeAll (2 * [97, 61, 49, 10, 10].length + 3)
        (initState [.chunk ([97, 61, 49, 10, 10].take 2),
          .chunk ([97, 61, 49, 10, 10].drop 2)] none)).1 =
      (decodeAll (2 * [97, 61, 49, 10, 10].length + 3)
        (initState [.chunk [97, 61, 49, 10, 10]] none)).1 ∧
    (decodeAll (2 * [97, 61, 49, 10, 10].length + 3)
        (initState [.chunk [97, 61, 49, 10, 10]] none)).1 =
      some [⟨[([97], [49])]⟩] :=
  ⟨claim1_split_refill_equiv [97, 61, 49, 10, 10] 2 (by decide) (by decide), by decide⟩

theorem readStep_chunk_all (src : List ReadEvent) (rem : List Nat) (rr : Nat) (c : List Nat)
    (fil : Option JFilter) (hc : c.length ≤ 32768) :
    readStep ⟨.chunk c :: src, rem, rr, fil⟩ = (some c.length, ⟨src, rem.drop rr ++ c, 0, fil⟩) := by
  rw [readStep_chunk]
  have hdrop : c.drop 32768 = [] := by
    apply List.length_eq_zero.mp
    rw [List.length_drop]
    omega
  rw [List.take_of_length_le hc, hdrop]
  simp

theorem readStep_chunk_big (src : List ReadEvent) (rem : List Nat) (rr : Nat) (c : List Nat)
    (fil : Option JFilter) (hc : 32768 < c.length) :
    readStep ⟨.chunk c :: src, rem, rr, fil⟩ =
      (some 32768, ⟨.chunk (c.drop 32768) :: src, rem.drop rr ++ c.take 32768, 0, fil⟩) := by
  rw [readStep_chunk]
  have h1 : (c.take 32768).length = 32768 := by
    rw [List.length_take]
    omega
  have h2 : (c.drop 32768).isEmpty = false := by
    cases hcc : c.drop 32768 with
    | nil =>
      exfalso
      have := congrArg List.length hcc
      rw [List.length_drop] at this
      simp at this
      omega
    | cons a l => rfl
  rw [h1, h2]
  simp

theorem cxStream_length : cxStream.length = 10000000 := by
  have h1 : cxStream =
      [65, 10, 116, 150, 152, 0, 0, 0, 0, 0] ++ (List.replicate 9999988 48 ++ [10, 10]) := rfl
  rw [h1]
  simp only [List.length_append, List.length_replicate]
  rfl

theorem cxSplit1_length : cxSplit1.length = 9999999 := by
  show (cxStream.take 9999999).length = 9999999
  rw [List.length_take, cxStream_length]
  omega

theorem cx_take (k : Nat) (hk : k ≤ 9999988) :
    cxStream.take (k + 10) =
      65 :: (10 :: ([116, 150, 152, 0, 0, 0, 0, 0] ++ List.replicate k 48)) := by
  show (65 :: 10 :: ([116, 150, 152, 0, 0, 0, 0, 0] ++
    (List.replicate 9999988 48 ++ [10, 10]))).take (k + 10) = _
  rw [show k + 10 = (k + 9) + 1 by omega, List.take_succ_cons,
    show k + 9 = (k + 8) + 1 by omega, List.take_succ_cons,
    List.take_append_eq_append_take, List.take_of_length_le (by simp),
    show k + 8 - ([116, 150, 152, 0, 0, 0, 0, 0] : List Nat).length = k by simp,
    List.take_append_eq_append_take, List.take_replicate,
    show min k 9999988 = k by omega,
    show k - (List.replicate 9999988 48).length = 0 by rw [List.length_replicate]; omega,
    List.take_zero, List.append_nil]

theorem cxs_take (n : Nat) (hn : n ≤ 9999999) : cxSplit1.take n = cxStream.take n := by
  show (cxStream.take 9999999).take n = _
  rw [List.take_take, min_eq_left hn]

theorem cxSplit1_eq : cxSplit1 =
    65 :: (10 :: ([116, 150, 152, 0, 0, 0, 0, 0] ++
      (List.replicate 9999988 48 ++ [10]))) := by
  show cxStream.take 9999999 = _
  rw [show cxStream =
    [65, 10, 116, 150, 152, 0, 0, 0, 0, 0] ++ (List.replicate 9999988 48 ++ [10, 10]) from rfl]
  rw [List.take_append_eq_append_take,
    List.take_of_length_le (by decide),
    show (9999999 - ([65, 10, 116, 150, 152, 0, 0, 0, 0, 0] : List Nat).length) = 9999989
      by decide,
    List.take_append_eq_append_take,
    List.take_of_length_le (by rw [List.length_replicate]; omega),
    show (9999989 - (List.replicate 9999988 48).length) = 1 by rw [List.length_replicate],
    show ([10, 10] : List Nat).take 1 = [10] from rfl]
  rfl

theorem cx_drop_tail : cxStream.drop 9999999 = [10] := by
  rw [show cxStream =
    [65, 10, 116, 150, 152, 0, 0, 0, 0, 0] ++ (List.replicate 9999988 48 ++ [10, 10]) from rfl]
  rw [List.drop_append_eq_append_drop,
    List.drop_eq_nil_of_le (by decide),
    show (9999999 - ([65, 10, 116, 150, 152, 0, 0, 0, 0, 0] : List Nat).length) = 9999989
      by decide,
    List.drop_append_eq_append_drop,
    List.drop_eq_nil_of_le (by rw [List.length_replicate]; omega),
    show (9999989 - (List.replicate 9999988 48).length) = 1 by rw [List.length_replicate]]
  rfl

theorem cx_parse (k : Nat) (hk : k < 9999988) :
    parse_end_of_msg (65 :: 10 :: ([116, 150, 152, 0, 0, 0, 0, 0] ++ List.replicate k 48)) =
      .incomplete 9999988 := by
  have h1 : tagP [NEWLINE]
      (65 :: 10 :: ([116, 150, 152, 0, 0, 0, 0, 0] ++ List.replicate k 48)) =
      .error .tag := tagP_cons_ne NEWLINE 65 _ (by decide)
  have hpk : parse_key (65 :: 10 :: ([116, 150, 152, 0, 0, 0, 0, 0] ++ List.replicate k 48)) =
      .ok (10 :: ([116, 150, 152, 0, 0, 0, 0, 0] ++ List.replicate k 48)) [65] := by
    have h := takeWhile1P_append (fun c => c != EQUALS && c != NEWLINE) [65] 10
      ([116, 150, 152, 0, 0, 0, 0, 0] ++ List.replicate k 48) (by simp) (by decide) (by decide)
    simpa [parse_key] using h
  have htag : tagP [NEWLINE] (10 :: ([116, 150, 152, 0, 0, 0, 0, 0] ++ List.replicate k 48)) =
      .ok ([116, 150, 152, 0, 0, 0, 0, 0] ++ List.replicate k 48) [NEWLINE] :=
    tagP_cons_self NEWLINE _
  have hint : parse_value_binary_int ([116, 150, 152, 0, 0, 0, 0, 0] ++ List.replicate k 48) =
      .incomplete 9999988 := by
    have hval : leVal [116, 150, 152, 0, 0, 0, 0, 0] = 9999988 := by decide
    have h := pvbi_mid [116, 150, 152, 0, 0, 0, 0, 0] (List.replicate k 48) (by decide)
      (by rw [hval, List.length_replicate]; exact hk)
    rw [hval] at h
    exact h
  have hpvb : parse_value_binary (10 :: ([116, 150, 152, 0, 0, 0, 0, 0] ++ List.replicate k 48)) =
      .incomplete 9999988 := by
    calc parse_value_binary (10 :: ([116, 150, 152, 0, 0, 0, 0, 0] ++ List.replicate k 48))
        = PResult.bind
            (tagP [NEWLINE] (10 :: ([116, 150, 152, 0, 0, 0, 0, 0] ++ List.replicate k 48)))
            (fun r _ => PResult.bind (parse_value_binary_int r)
              (fun r2 v => PResult.bind (tagP [NEWLINE] r2) (fun r3 _ => .ok r3 v))) := rfl
      _ = PResult.bind (.ok ([116, 150, 152, 0, 0, 0, 0, 0] ++ List.replicate k 48) [NEWLINE])
            (fun r _ => PResult.bind (parse_value_binary_int r)
              (fun r2 v => PResult.bind (tagP [NEWLINE] r2) (fun r3 _ => .ok r3 v))) := by
          rw [htag]
      _ = PResult.bind
            (parse_value_binary_int ([116, 150, 152, 0, 0, 0, 0, 0] ++ List.replicate k 48))
            (fun r2 v => PResult.bind (tagP [NEWLINE] r2) (fun r3 _ => .ok r3 v)) :=
          PResult.bind_ok _ _ _
      _ = PResult.bind (PResult.incomplete 9999988)
            (fun r2 v => PResult.bind (tagP [NEWLINE] r2) (fun r3 _ => .ok r3 v)) := by
          rw [hint]
      _ = .incomplete 9999988 := PResult.bind_incomplete _ _
  have hpv : parse_value (10 :: ([116, 150, 152, 0, 0, 0, 0, 0] ++ List.replicate k 48)) =
      parse_value_binary (10 :: ([116, 150, 152, 0, 0, 0, 0, 0] ++ List.replicate k 48)) := by
    simp [parse_value, NEWLINE, EQUALS]
  have hpkv : parse_key_value
      (65 :: 10 :: ([116, 150, 152, 0, 0, 0, 0, 0] ++ List.replicate k 48)) =
      .incomplete 9999988 := by
    calc parse_key_value (65 :: 10 :: ([116, 150, 152, 0, 0, 0, 0, 0] ++ List.replicate k 48))
        = PResult.bind
            (parse_key (65 :: 10 :: ([116, 150, 152, 0, 0, 0, 0, 0] ++ List.replicate k 48)))
            (fun r k0 => PResult.bind (parse_value r) (fun r2 v => .ok r2 (k0, v))) := rfl
      _ = PResult.bind
            (.ok (10 :: ([116, 150, 152, 0, 0, 0, 0, 0] ++ List.replicate k 48)) [65])
            (fun r k0 => PResult.bind (parse_value r) (fun r2 v => .ok r2 (k0, v))) := by
          rw [hpk]
      _ = PResult.bind
            (parse_value (10 :: ([116, 150, 152, 0, 0, 0, 0, 0] ++ List.replicate k 48)))
            (fun r2 v => .ok r2 ([65], v)) := PResult.bind_ok _ _ _
      _ = PResult.bind (PResult.incomplete 9999988) (fun r2 v => .ok r2 ([65], v)) := by
          rw [hpv, hpvb]
      _ = .incomplete 9999988 := PResult.bind_incomplete _ _
  exact pem_incomplete_of_kv _ _ h1 hpkv

theorem cx_head (k : Nat) (h1 : 1 ≤ k) (h2 : k ≤ 305) :
    parse_end_of_msg (cxStream.take (32768 * k)) = .incomplete 9999988 := by
  rw [show 32768 * k = (32768 * k - 10) + 10 by omega, cx_take (32768 * k - 10) (by omega)]
  exact cx_parse (32768 * k - 10) (by omega)

theorem pvb_exact (d pay rest : List Nat) (h8 : d.length = 8) (hn : pay.length = leVal d) :
    parse_value_binary (NEWLINE :: (d ++ (pay ++ (NEWLINE :: rest)))) = .ok rest pay := by
  unfold parse_value_binary
  rw [tagP_cons_self]
  simp only [PResult.bind_ok]
  rw [parse_value_binary_int_append d pay (NEWLINE :: rest) h8 hn]
  simp only [PResult.bind_ok]
  rw [tagP_cons_self]
  simp only [PResult.bind_ok]

theorem pem_one_bin_field (d pay rest : List Nat) (h8 : d.length = 8)
    (hn : pay.length = leVal d) :
    parse_end_of_msg (65 :: (10 :: (d ++ (pay ++ (10 :: rest))))) =
      .ok rest (some ([65], pay)) := by
  have htag : tagP [NEWLINE] (65 :: (10 :: (d ++ (pay ++ (10 :: rest))))) = .error .tag :=
    tagP_cons_ne NEWLINE 65 _ (by decide)
  have hpk : parse_key (65 :: (10 :: (d ++ (pay ++ (10 :: rest))))) =
      .ok (10 :: (d ++ (pay ++ (10 :: rest)))) [65] := by
    have h := takeWhile1P_append (fun c => c != EQUALS && c != NEWLINE) [65] 10
      (d ++ (pay ++ (10 :: rest))) (by simp) (by decide) (by decide)
    simpa [parse_key] using h
  have hpv : parse_value (10 :: (d ++ (pay ++ (10 :: rest)))) =
      parse_value_binary (10 :: (d ++ (pay ++ (10 :: rest)))) := by
    simp [parse_value, NEWLINE, EQUALS]
  have hpvb : parse_value_binary (10 :: (d ++ (pay ++ (10 :: rest)))) = .ok rest pay :=
    pvb_exact d pay rest h8 hn
  have hpkv : parse_key_value (65 :: (10 :: (d ++ (pay ++ (10 :: rest))))) =
      .ok rest ([65], pay) := by
    unfold parse_key_value
    show PResult.bind (parse_key (65 :: (10 :: (d ++ (pay ++ (10 :: rest)))))) _ = _
    rw [hpk]
    simp only [PResult.bind_ok]
    rw [hpv, hpvb]
    simp only [PResult.bind_ok]
  rw [pem_of_tag_error _ htag, hpkv]

theorem cxSplit1_parse :
    parse_end_of_msg cxSplit1 = .ok [] (some ([65], List.replicate 9999988 48)) := by
  rw [cxSplit1_eq]
  exact pem_one_bin_field [116, 150, 152, 0, 0, 0, 0, 0] (List.replicate 9999988 48) []
    (by decide) (by rw [List.length_replicate]; decide)

theorem cx_read (k : Nat) (hk : k ≤ 304) : readStep (cxState k) = (some 32768, cxState (k + 1)) := by
  show readStep ⟨[.chunk (cxStream.drop (32768 * k))], cxStream.take (32768 * k), 0, none⟩ = _
  rw [readStep_chunk_big [] (cxStream.take (32768 * k)) 0 (cxStream.drop (32768 * k)) none
    (by rw [List.length_drop, cxStream_length]; omega)]
  rw [List.drop_zero, ← List.take_add, List.drop_drop,
    show 32768 * k + 32768 = 32768 * (k + 1) by ring]
  rfl

theorem cx_read_last : readStep (cxState 305) = (some 5760, cxFull) := by
  show readStep ⟨[.chunk (cxStream.drop (32768 * 305))], cxStream.take (32768 * 305), 0, none⟩ = _
  rw [readStep_chunk_all [] (cxStream.take (32768 * 305)) 0 (cxStream.drop (32768 * 305)) none
    (by rw [List.length_drop, cxStream_length]; omega)]
  rw [List.drop_zero, List.take_append_drop,
    show (cxStream.drop (32768 * 305)).length = 5760 by
      rw [List.length_drop, cxStream_length]]
  rfl

theorem cxs_read (k : Nat) (hk : k ≤ 304) :
    readStep (cxsState k) = (some 32768, cxsState (k + 1)) := by
  show readStep ⟨[.chunk (cxSplit1.drop (32768 * k)), .chunk (cxStream.drop 9999999)],
    cxSplit1.take (32768 * k), 0, none⟩ = _
  rw [readStep_chunk_big [.chunk (cxStream.drop 9999999)] (cxSplit1.take (32768 * k)) 0
    (cxSplit1.drop (32768 * k)) none
    (by rw [List.length_drop, cxSplit1_length]; omega)]
  rw [List.drop_zero, ← List.take_add, List.drop_drop,
    show 32768 * k + 32768 = 32768 * (k + 1) by ring]
  rfl

theorem cxs_read_last : readStep (cxsState 305) = (some 5759, cxsFull) := by
  show readStep ⟨[.chunk (cxSplit1.drop (32768 * 305)), .chunk (cxStream.drop 9999999)],
    cxSplit1.take (32768 * 305), 0, none⟩ = _
  rw [readStep_chunk_all [.chunk (cxStream.drop 9999999)] (cxSplit1.take (32768 * 305)) 0
    (cxSplit1.drop (32768 * 305)) none
    (by rw [List.length_drop, cxSplit1_length]; omega)]
  rw [List.drop_zero, List.take_append_drop,
    show (cxSplit1.drop (32768 * 305)).length = 5759 by
      rw [List.length_drop, cxSplit1_length]]
  rfl

theorem cx_loop (j : Nat) : ∀ e k, k + j = 305 → 1 ≤ k →
    (nextLoop (j + (e + 2)) (cxState k) []).1 = (nextLoop (e + 1) cxFull []).1 := by
  induction j with
  | zero =>
    intro e k hk _
    have hk305 : k = 305 := by omega
    subst hk305
    rw [show 0 + (e + 2) = (e + 1) + 1 by omega]
    exact nextLoop_read_fst (e + 1) (cxState 305) [] 9999988 5760 cxFull
      (by show (cxStream.take (32768 * 305)).length < 10000000
          rw [List.length_take, cxStream_length]
          omega)
      (by show parse_end_of_msg ((cxStream.take (32768 * 305)).drop 0) = _
          rw [List.drop_zero]
          exact cx_head 305 (by omega) (by omega))
      cx_read_last (by omega)
  | succ j ih =>
    intro e k hk hk1
    have hk304 : k ≤ 304 := by omega
    rw [show (j + 1) + (e + 2) = (j + (e + 2)) + 1 by omega]
    rw [nextLoop_read_fst (j + (e + 2)) (cxState k) [] 9999988 32768 (cxState (k + 1))
      (by show (cxStream.take (32768 * k)).length < 10000000
          rw [List.length_take, cxStream_length]
          omega)
      (by show parse_end_of_msg ((cxStream.take (32768 * k)).drop 0) = _
          rw [List.drop_zero]
          exact cx_head k (by omega) (by omega))
      (cx_read k hk304) (by omega)]
    exact ih e (k + 1) (by omega) (by omega)

theorem cxs_loop (j : Nat) : ∀ e k, k + j = 305 → 1 ≤ k →
    (nextLoop (j + (e + 2)) (cxsState k) []).1 = (nextLoop (e + 1) cxsFull []).1 := by
  induction j with
  | zero =>
    intro e k hk _
    have hk305 : k = 305 := by omega
    subst hk305
    rw [show 0 + (e + 2) = (e + 1) + 1 by omega]
    exact nextLoop_read_fst (e + 1) (cxsState 305) [] 9999988 5759 cxsFull
      (by show (cxSplit1.take (32768 * 305)).length < 10000000
          rw [List.length_take, cxSplit1_length]
          omega)
      (by show parse_end_of_msg ((cxSplit1.take (32768 * 305)).drop 0) = _
          rw [List.drop_zero, cxs_take (32768 * 305) (by omega)]
          exact cx_head 305 (by omega) (by omega))
      cxs_read_last (by omega)
  | succ j ih =>
    intro e k hk hk1
    have hk304 : k ≤ 304 := by omega
    rw [show (j + 1) + (e + 2) = (j + (e + 2)) + 1 by omega]
    rw [nextLoop_read_fst (j + (e + 2)) (cxsState k) [] 9999988 32768 (cxsState (k + 1))
      (by show (cxSplit1.take (32768 * k)).length < 10000000
          rw [List.length_take, cxSplit1_length]
          omega)
      (by show parse_end_of_msg ((cxSplit1.take (32768 * k)).drop 0) = _
          rw [List.drop_zero, cxs_take (32768 * k) (by omega)]
          exact cx_head k (by omega) (by omega))
      (cxs_read k hk304) (by omega)]
    exact ih e (k + 1) (by omega) (by omega)

theorem cx_tail (e : Nat) : (nextLoop (e + 1) cxFull []).1 = .panicRunaway cxFull := by
  rw [nextLoop_runaway e cxFull []
    (by show ¬ cxStream.length < 10000000; rw [cxStream_length]; omega)]

theorem nextLoop_field_fst (f : Nat) (st : RState) (acc : List KVP) (rem : List Nat)
    (kv : KVP) (st' : RState)
    (hg : st.remainder.length < 10000000)
    (hp : parse_end_of_msg (st.remainder.drop st.remainderRead) = .ok rem (some kv))
    (hst : st' = ⟨st.source, st.remainder, st.remainder.length - rem.length, st.filter⟩) :
    (nextLoop (f + 1) st acc).1 = (nextLoop f st' (acc ++ [kv])).1 := by
  rw [nextLoop_field f st acc rem kv hg hp, hst]

theorem cxs_tail : (nextLoop 3 cxsFull []).1 =
    .yield ⟨[([65], List.replicate 9999988 48)]⟩ ⟨[], [10], 1, none⟩ := by
  have hg1 : cxsFull.remainder.length < 10000000 := by
    show cxSplit1.length < 10000000
    rw [cxSplit1_length]
    omega
  have hp1 : parse_end_of_msg (cxsFull.remainder.drop cxsFull.remainderRead) =
      .ok [] (some ([65], List.replicate 9999988 48)) := by
    show parse_end_of_msg (cxSplit1.drop 0) = _
    rw [List.drop_zero]
    exact cxSplit1_parse
  rw [show (3 : Nat) = 2 + 1 from rfl,
    nextLoop_field_fst 2 cxsFull [] [] ([65], List.replicate 9999988 48)
      ⟨[.chunk (cxStream.drop 9999999)], cxSplit1, cxSplit1.length, none⟩ hg1 hp1
      (by rw [show (List.length ([] : List Nat)) = 0 from rfl, Nat.sub_zero]; rfl)]
  have hg2 : (⟨[.chunk (cxStream.drop 9999999)], cxSplit1, cxSplit1.length, none⟩ :
      RState).remainder.length < 10000000 := hg1
  have hp2 : parse_end_of_msg
      ((⟨[.chunk (cxStream.drop 9999999)], cxSplit1, cxSplit1.length, none⟩ :
        RState).remainder.drop
       (⟨[.chunk (cxStream.drop 9999999)], cxSplit1, cxSplit1.length, none⟩ :
        RState).remainderRead) = .incomplete 1 := by
    show parse_end_of_msg (cxSplit1.drop cxSplit1.length) = .incomplete 1
    rw [List.drop_length]
    rfl
  have hrs : readStep (⟨[.chunk (cxStream.drop 9999999)], cxSplit1, cxSplit1.length, none⟩ :
      RState) = (some 1, ⟨[], [10], 0, none⟩) := by
    rw [readStep_chunk_all [] cxSplit1 cxSplit1.length (cxStream.drop 9999999) none
      (by rw [List.length_drop, cxStream_length]; omega)]
    rw [List.drop_length, cx_drop_tail]
    rfl
  rw [show (2 : Nat) = 1 + 1 from rfl,
    nextLoop_read_fst 1 ⟨[.chunk (cxStream.drop 9999999)], cxSplit1, cxSplit1.length, none⟩
      ([] ++ [([65], List.replicate 9999988 48)]) 1 1 ⟨[], [10], 0, none⟩ hg2 hp2 hrs
      (by omega)]
  rw [show (1 : Nat) = 0 + 1 from rfl,
    nextLoop_yield 0 ⟨[], [10], 0, none⟩ ([] ++ [([65], List.replicate 9999988 48)]) []
      (by show ([10] : List Nat).length < 10000000; decide)
      (by show parse_end_of_msg (([10] : List Nat).drop 0) = .ok [] none
          rw [List.drop_zero]
          exact pem_newline [])
      rfl]
  rfl

theorem cx_run : (next 308 (initState [.chunk cxStream] none)).1 = .panicRunaway cxFull := by
  have hinit : initState [.chunk cxStream] none = cxState 0 := rfl
  rw [hinit, next_empty_read 308 (cxState 0) 32768 (cxState 1) rfl (cx_read 0 (by omega))
    (by omega)]
  show (nextLoop (304 + (2 + 2)) (cxState 1) []).1 = _
  rw [cx_loop 304 2 1 rfl (by omega)]
  exact cx_tail 2

theorem cxs_run : (next 308 (initState
      [.chunk (cxStream.take 9999999), .chunk (cxStream.drop 9999999)] none)).1 =
    .yield ⟨[([65], List.replicate 9999988 48)]⟩ ⟨[], [10], 1, none⟩ := by
  have hinit : initState [.chunk (cxStream.take 9999999), .chunk (cxStream.drop 9999999)] none =
      cxsState 0 := rfl
  rw [hinit, next_empty_read 308 (cxsState 0) 32768 (cxsState 1) rfl (cxs_read 0 (by omega))
    (by omega)]
  show (nextLoop (304 + (2 + 2)) (cxsState 1) []).1 = _
  rw [cxs_loop 304 2 1 rfl (by omega)]
  exact cxs_tail

theorem decodeAll_succ (f : Nat) (st : RState) :
    decodeAll (f + 1) st =
      match next (f + 1) st with
      | (.yield m st', g) =>
        ((decodeAll f st').1.map (fun l => m :: l), max g (decodeAll f st').2)
      | (.stop _, g) => (some [], g)
      | (.panicRunaway _, g) => (none, g)
      | (.panicParse, g) => (none, g)
      | (.crash, g) => (none, g)
      | (.outOfFuel, g) => (none, g) := by
  rcases hnx : next (f + 1) st with ⟨o, g⟩
  cases o <;> simp only [decodeAll, hnx]

/-- C1 counterexample: a complete, valid 10,000,000-byte stream — one binary
field of declared length 9,999,988 plus its record separator, which the
chunking-free reference decoder accepts as exactly one record — decodes to
that one record when fed as two refills split at offset 9,999,999, but
aborts with the runaway-growth panic (result `none`) when fed whole: the
whole feed refills from 9,994,240 straight past the ceiling before the field
is ever complete, while the split feed's final partial refill lands a loop
head at 9,999,999 bytes, under the ceiling, where the field parses. So the
split/whole equivalence fails for this valid stream, at this offset. -/
theorem claim1_counterexample :
    refAll 2 cxStream = some [⟨[([65], List.replicate 9999988 48)]⟩] ∧
    (decodeAll 308 (initState
        [.chunk (cxStream.take 9999999), .chunk (cxStream.drop 9999999)] none)).1 =
      some [⟨[([65], List.replicate 9999988 48)]⟩] ∧
    (decodeAll 308 (initState [.chunk cxStream] none)).1 = none := by
  refine ⟨?_, ?_, ?_⟩
  · rw [show (2 : Nat) = 1 + 1 from rfl, refAll_succ]
    have hpem : parse_end_of_msg cxStream =
        .ok [10] (some ([65], List.replicate 9999988 48)) := by
      show parse_end_of_msg (65 :: (10 :: ([116, 150, 152, 0, 0, 0, 0, 0] ++
        (List.replicate 9999988 48 ++ (10 :: [10]))))) = _
      exact pem_one_bin_field [116, 150, 152, 0, 0, 0, 0, 0] (List.replicate 9999988 48) [10]
        (by decide) (by rw [List.length_replicate]; decide)
    rw [show cxStream.length + 1 = 10000000 + 1 by rw [cxStream_length]]
    rw [refNext_step_field 10000000 cxStream [10] [] ([65], List.replicate 9999988 48) hpem]
    rw [show (10000000 : Nat) = 9999999 + 1 from rfl]
    rw [refNext_step_yield 9999999 [10] [] ([] ++ [([65], List.replicate 9999988 48)])
      (pem_newline [])]
    rfl
  · rw [show (308 : Nat) = 307 + 1 from rfl, decodeAll_succ 307]
    rcases hnx : next (307 + 1) (initState
        [.chunk (cxStream.take 9999999), .chunk (cxStream.drop 9999999)] none) with ⟨o, g⟩
    have ho : o = .yield ⟨[([65], List.replicate 9999988 48)]⟩ ⟨[], [10], 1, none⟩ := by
      have h := cxs_run
      rw [show (308 : Nat) = 307 + 1 from rfl, hnx] at h
      exact h
    subst ho
    show Option.map (fun l => (⟨[([65], List.replicate 9999988 48)]⟩ : JournalMessage) :: l)
      (decodeAll 307 (⟨[], [10], 1, none⟩ : RState)).1 =
      some [⟨[([65], List.replicate 9999988 48)]⟩]
    rw [show (decodeAll 307 (⟨[], [10], 1, none⟩ : RState)).1 = some [] from by decide]
    rfl
  · rw [show (308 : Nat) = 307 + 1 from rfl, decodeAll_succ 307]
    rcases hnx : next (307 + 1) (initState [.chunk cxStream] none) with ⟨o, g⟩
    have ho : o = .panicRunaway cxFull := by
      have h := cx_run
      rw [show (308 : Nat) = 307 + 1 from rfl, hnx] at h
      exact h
    subst ho
    rfl
